import Mathlib

/-!
Verification of the ECS runtime (`src/ecs.js`) of kozak-codes/ecs.

Shallow embedding notes.

JavaScript entities are mutable objects shared by reference between
`world.entities`, the memoized filter lists and the listener lists.  We model
this by giving every entity a numeric id (`EntityId`): `world.store` maps each
id to the entity's component record, and all the lists hold ids.  Mutating a
component record through one list is then visible through every other list,
exactly as for a shared JS object reference.  `createEntity` allocates the
next fresh id; the store only ever grows (a JS entity object outlives its
removal from `world.entities`, e.g. inside listener lists).

JS objects used as string-keyed dictionaries (component records,
`world.filters`, `world.listeners.added/removed`, the stats counters) are
modeled as association lists in insertion order, which is the enumeration
order of `for (const k in o)` for the non-integral keys this library uses.
Assigning an existing key keeps its position; `delete` removes it.

JS truthiness drives every guard in the source (`if (entity[name])`,
`!world.filters[id]`, ...), so component data is modeled by `JSValue` with a
`truthy` coercion.  Numbers are modeled by `Int` (the library only ever
stores and adds small integers; floats and NaN never arise on the modeled
paths -- see the comments at the few spots where JS could produce NaN from
states unreachable through the public interface).
-/

/-- Identity of a JS entity object (index into `World.store`). -/
abbrev EntityId := Nat

/-- A JavaScript value, as far as this library inspects one: only truthiness
and (for component data) identity matter. -/
inductive JSValue where
  | vundef
  | vnull
  | vbool (b : Bool)
  | vnum (n : Int)
  | vstr (s : String)
  | vobj (id : Nat)
deriving DecidableEq

/-- JS truthiness. -/
def truthy : JSValue → Bool
  | .vundef => false
  | .vnull => false
  | .vbool b => b
  | .vnum n => n != 0
  | .vstr s => s != ""
  | .vobj _ => true

/-- An entity's component record: a JS object mapping component names to
component data, in insertion order. -/
abbrev Cmp := List (String × JSValue)

/-- Property read `o[k]`: the stored value, or `undefined` when absent. -/
def lookupCmp (c : Cmp) (k : String) : JSValue :=
  match c with
  | [] => .vundef
  | p :: rest => if p.1 = k then p.2 else lookupCmp rest k

/-- Property write `o[k] = v`: overwrite in place when the key exists (JS
objects keep the key's insertion position), else append. -/
def setCmp (c : Cmp) (k : String) (v : JSValue) : Cmp :=
  match c with
  | [] => [(k, v)]
  | p :: rest => if p.1 = k then (k, v) :: rest else p :: setCmp rest k v

/-- Property removal `delete o[k]`. -/
def delCmp (c : Cmp) (k : String) : Cmp :=
  match c with
  | [] => []
  | p :: rest => if p.1 = k then delCmp rest k else p :: delCmp rest k

/-- Dictionary read for the generic string-keyed JS objects of the world
(`filters`, `listeners.*`, the stats counter objects): `none` is JS
`undefined`. -/
def alookup {α : Type} (l : List (String × α)) (k : String) : Option α :=
  match l with
  | [] => none
  | p :: rest => if p.1 = k then some p.2 else alookup rest k

/-- Dictionary write for the generic string-keyed JS objects of the world. -/
def aset {α : Type} (l : List (String × α)) (k : String) (v : α) : List (String × α) :=
  match l with
  | [] => [(k, v)]
  | p :: rest => if p.1 = k then (k, v) :: rest else p :: aset rest k v

/-- The `remove-array-items` collaborator (npm dependency): remove `count`
elements starting at `index`, shifting later elements down.  The spec (§6)
gives this contract for in-range indices; every call site in the source
either guards `indexOf >= 0` or resolves the element by a valid index first. -/
def removeItems {α : Type} (arr : List α) (startIdx : Nat) (removeCount : Nat) : List α :=
  arr.take startIdx ++ arr.drop (startIdx + removeCount)

/-- Modelled from the spec: `ordered-insert.js` is repository code that is not
under `src/`.  Per §6 its contract is "insert value into a sorted sequence,
preserving sort order", and §3/§4.1 fix the order used for the entity removal
queue as descending. -/
def orderedInsert (l : List Nat) (v : Nat) : List Nat :=
  match l with
  | [] => [v]
  | x :: xs => if x ≤ v then v :: x :: xs else x :: orderedInsert xs v

/-- Splitting on a single comma, `filterId.split(',')` (so `""` yields `[""]`,
and a trailing comma yields a trailing empty token). -/
def splitCommaChars : List Char → List (List Char)
  | [] => [[]]
  | ch :: rest =>
    if ch = ',' then [] :: splitCommaChars rest
    else
      match splitCommaChars rest with
      | [] => [[ch]]
      | tok :: toks => (ch :: tok) :: toks

/-- The token list of a filter key, as strings. -/
def splitComma (s : String) : List String :=
  (splitCommaChars s.data).map String.mk

/-- JS `s.startsWith('!')` on a token, at the character level. -/
def startsBang (t : List Char) : Bool :=
  match t with
  | '!' :: _ => true
  | _ => false

/-- Source `_matchesFilter(filterId, entity, componentIgnoreList)`: split the
key on commas; a token in the ignore list fails; `!name` fails when the
entity has a truthy `name`; a plain token fails when the entity lacks a
truthy value under it.  All tokens must pass. -/
def _matchesFilter (filterId : String) (cmp : Cmp) (componentIgnoreList : List String := []) : Bool :=
  (splitCommaChars filterId.data).all fun componentId =>
    if componentIgnoreList.contains (String.mk componentId) then false
    else if startsBang componentId && truthy (lookupCmp cmp (String.mk componentId.tail)) then false
    else if !startsBang componentId && !truthy (lookupCmp cmp (String.mk componentId)) then false
    else true

/-- Source `_hasComponent(filterId, component)`: does the comma-joined filter
key syntactically mention `component` (string/substring tests, exactly as in
the source)? -/
def _hasComponent (filterId : String) (component : String) : Bool :=
  filterId == component ||
  (component.data ++ [',']).isPrefixOf filterId.data ||
  ([','] ++ component.data).isSuffixOf filterId.data ||
  (filterId.data.tails.any fun t => ([','] ++ component.data ++ [',']).isPrefixOf t)

/-- Per-system stats entry (`{ name, timeElapsed, filters }`). -/
structure SysStats where
  name : String
  timeElapsed : Int
  filters : List (String × Int)
deriving DecidableEq

/-- World stats.  `lastSendTime` only throttles the optional devtools
publish (wall clock), kept as an inert field. -/
structure Stats where
  entityCount : Int
  componentCount : List (String × Int)
  filterInvocationCount : List (String × Int)
  systems : List SysStats
  currentSystem : Nat
  lastSendTime : Int
deriving DecidableEq

/-- The world.  `store` realizes JS object identity for entities (see header
comment); `systems` callbacks live outside the state (a `World` cannot contain
`World → World` fields), and are passed to the phase drivers explicitly. -/
structure World where
  entities : List EntityId
  store : List Cmp
  filters : List (String × List EntityId)
  listenersAdded : List (String × List EntityId)
  listenersRemoved : List (String × List EntityId)
  removalsEntities : List Nat
  removalsComponents : List String
  stats : Stats
deriving DecidableEq

/-- The component record of entity `eid` (JS: just the entity object itself). -/
def getCmp (w : World) (eid : EntityId) : Cmp :=
  w.store.getD eid []

/-- Source `createWorld()` (the devtools post-message is the out-of-scope
observability channel). -/
def createWorld : World :=
  { entities := []
    store := []
    filters := []
    listenersAdded := []
    listenersRemoved := []
    removalsEntities := []
    removalsComponents := []
    stats :=
      { entityCount := 0
        componentCount := []
        filterInvocationCount := []
        systems := []
        currentSystem := 0
        lastSendTime := 0 } }

/-- Source `createEntity(world)`: push a fresh empty entity, increment
`entityCount`; returns the created entity (its id). -/
def createEntity (w : World) : World × EntityId :=
  let eid := w.store.length
  ({ w with
      entities := w.entities ++ [eid]
      store := w.store ++ [[]]
      stats := { w.stats with entityCount := w.stats.entityCount + 1 } }, eid)

/-- JS `Number.isInteger(componentCount[name])`: in the modeled state every
stored counter is an `Int`, so the test is key presence. -/
def ccIsInteger (cc : List (String × Int)) (k : String) : Bool :=
  (alookup cc k).isSome

/-- Source `addComponentToEntity(world, entity, componentName, componentData)`.
Returns early when the entity already has a truthy value under the name;
otherwise initializes/increments the per-component counter, stores the data,
reconciles every memoized filter against the mutated entity, and appends the
entity to each "added" listener whose filter the entity now matches but would
not match were the new component absent. -/
def addComponentToEntity (w : World) (eid : EntityId) (componentName : String)
    (componentData : JSValue := .vobj 0) : World :=
  let cmp := getCmp w eid
  if truthy (lookupCmp cmp componentName) then w
  else
    let cc := w.stats.componentCount
    let cc := if !ccIsInteger cc componentName then aset cc componentName 0 else cc
    let cc := if !truthy (lookupCmp cmp componentName)
              then aset cc componentName ((alookup cc componentName).getD 0 + 1) else cc
    let newCmp := setCmp cmp componentName componentData
    let filters := w.filters.map fun p =>
      let isMatch := _matchesFilter p.1 newCmp
      if p.2.contains eid then
        (p.1, if !isMatch then removeItems p.2 (p.2.indexOf eid) 1 else p.2)
      else
        (p.1, if isMatch then p.2 ++ [eid] else p.2)
    let listenersAdded := w.listenersAdded.map fun p =>
      let isMatch := _matchesFilter p.1 newCmp && !_matchesFilter p.1 newCmp [componentName]
      (p.1, if isMatch && !p.2.contains eid then p.2 ++ [eid] else p.2)
    { w with
        store := w.store.set eid newCmp
        filters := filters
        listenersAdded := listenersAdded
        stats := { w.stats with componentCount := cc } }

/-- The queue-key separator of `DeferredRemovalMap.components`. -/
def removalSep : String := "__@@ECS@@__"

/-- Source `_removeComponent(world, entity, componentName)` (the non-deferred
removal path): decrement the counter when the component is truthy, delete the
key, then reconcile each memoized filter -- append the entity when it now
matches and is absent, otherwise remove it when the filter key syntactically
mentions the removed component (`_hasComponent`).
The JS `componentCount[name] -= 1` yields NaN when the counter key is absent;
that state is unreachable through the public interface (a truthy component
implies its counter was initialized by `addComponentToEntity`), and is
modeled as starting from 0. -/
def _removeComponent (w : World) (eid : EntityId) (componentName : String) : World :=
  let cmp := getCmp w eid
  let cc := if truthy (lookupCmp cmp componentName)
            then aset w.stats.componentCount componentName
                   ((alookup w.stats.componentCount componentName).getD 0 - 1)
            else w.stats.componentCount
  let newCmp := delCmp cmp componentName
  let filters := w.filters.map fun p =>
    if _matchesFilter p.1 newCmp && !p.2.contains eid then
      (p.1, p.2 ++ [eid])
    else if _hasComponent p.1 componentName then
      (p.1, if p.2.contains eid then removeItems p.2 (p.2.indexOf eid) 1 else p.2)
    else p
  { w with
      store := w.store.set eid newCmp
      filters := filters
      stats := { w.stats with componentCount := cc } }

/-- JS `world.entities.indexOf(entity)`: `-1` when absent. -/
def indexOfInt (l : List EntityId) (eid : EntityId) : Int :=
  if l.contains eid then (l.indexOf eid : Int) else -1

/-- Source `removeComponentFromEntity(world, entity, componentName, deferredRemoval)`:
no-op unless the entity has a truthy value under the name; flags every
"removed" listener whose filter matches now but would not match without this
component; then either enqueues the `"idx__@@ECS@@__name"` key (deduplicated)
or removes immediately. -/
def removeComponentFromEntity (w : World) (eid : EntityId) (componentName : String)
    (deferredRemoval : Bool := true) : World :=
  let cmp := getCmp w eid
  if !truthy (lookupCmp cmp componentName) then w
  else
    let listenersRemoved := w.listenersRemoved.map fun p =>
      if _matchesFilter p.1 cmp && !_matchesFilter p.1 cmp [componentName] &&
         !p.2.contains eid then
        (p.1, p.2 ++ [eid])
      else p
    let w := { w with listenersRemoved := listenersRemoved }
    if deferredRemoval then
      let idx := indexOfInt w.entities eid
      let removalKey := toString idx ++ removalSep ++ componentName
      if !w.removalsComponents.contains removalKey then
        { w with removalsComponents := w.removalsComponents ++ [removalKey] }
      else w
    else
      _removeComponent w eid componentName

/-- Source `_removeEntity(world, entity)`: decrement the counter of every
truthy component the entity holds, splice the entity out of `world.entities`,
and splice it out of every memoized filter that contains it.  (The source
passes `indexOf` straight to `removeItems`; all call sites resolve an entity
that is present, for which `removeItems l (l.indexOf e) 1` is the splice.) -/
def _removeEntity (w : World) (eid : EntityId) : World :=
  let cmp := getCmp w eid
  let cc := cmp.foldl
    (fun cc p => if truthy p.2 then aset cc p.1 ((alookup cc p.1).getD 0 - 1) else cc)
    w.stats.componentCount
  let entities := removeItems w.entities (w.entities.indexOf eid) 1
  let filters := w.filters.map fun p =>
    if p.2.contains eid then (p.1, removeItems p.2 (p.2.indexOf eid) 1) else p
  { w with
      entities := entities
      filters := filters
      stats := { w.stats with componentCount := cc } }

/-- Source `removeEntity(world, entity, deferredRemoval)`: early return when
`indexOf` is negative (entity not in the world); flags matching "removed"
listeners; then either records the index into the descending-sorted removal
queue (deduplicated) and decrements `entityCount`, or removes immediately. -/
def removeEntity (w : World) (eid : EntityId) (deferredRemoval : Bool := true) : World :=
  if !w.entities.contains eid then w
  else
    let idx := w.entities.indexOf eid
    let listenersRemoved := w.listenersRemoved.map fun p =>
      if _matchesFilter p.1 (getCmp w eid) && !p.2.contains eid then
        (p.1, p.2 ++ [eid])
      else p
    let w := { w with listenersRemoved := listenersRemoved }
    if deferredRemoval then
      if !w.removalsEntities.contains idx then
        { w with
            removalsEntities := orderedInsert w.removalsEntities idx
            stats := { w.stats with entityCount := w.stats.entityCount - 1 } }
      else w
    else
      _removeEntity w eid

/-- Listener type argument of `getEntities`. -/
inductive ListenerType where
  | added
  | removed
deriving DecidableEq

/-- JS falsiness of a possibly-absent numeric counter (`!count[id]`). -/
def jsFalsyCount (v : Option Int) : Bool :=
  match v with
  | none => true
  | some n => n == 0

/-- Stage 1 of `getEntities` (source lines 321-322): lazily memoize the
filter entry with a full scan of `entities`. -/
def getEntitiesMemoizeFilter (w : World) (filterId : String) : World :=
  if (alookup w.filters filterId).isNone then
    let seeded := w.entities.filter fun e => _matchesFilter filterId (getCmp w e)
    { w with filters := aset w.filters filterId seeded }
  else w

/-- Stage 2 of `getEntities` (source lines 324-327): initialize the
invocation counter when falsy, then add one. -/
def getEntitiesCountInvocation (w : World) (filterId : String) : World :=
  let w :=
    if jsFalsyCount (alookup w.stats.filterInvocationCount filterId) then
      let cnt := aset w.stats.filterInvocationCount filterId 0
      { w with stats := { w.stats with filterInvocationCount := cnt } }
    else w
  let cnt := aset w.stats.filterInvocationCount filterId
               ((alookup w.stats.filterInvocationCount filterId).getD 0 + 1)
  { w with stats := { w.stats with filterInvocationCount := cnt } }

/-- Stage 3 of `getEntities` (source lines 329-335): when the current
system's stats entry exists, initialize its per-filter counter when falsy and
add the memoized filter list's length. -/
def getEntitiesChargeSystem (w : World) (filterId : String) : World :=
  match w.stats.systems.get? w.stats.currentSystem with
  | some s =>
    let s := if jsFalsyCount (alookup s.filters filterId)
             then { s with filters := aset s.filters filterId 0 } else s
    let sf := aset s.filters filterId
                ((alookup s.filters filterId).getD 0 +
                  ((alookup w.filters filterId).getD []).length)
    let s := { s with filters := sf }
    { w with stats := { w.stats with
        systems := w.stats.systems.set w.stats.currentSystem s } }
  | none => w

/-- The `listenerType === 'added'` branch (source lines 337-346): lazily
create the added list, seeded with every currently matching entity. -/
def getEntitiesAdded (w : World) (filterId : String) : World :=
  if (alookup w.listenersAdded filterId).isNone then
    let seeded := w.entities.filter fun e => _matchesFilter filterId (getCmp w e)
    { w with listenersAdded := aset w.listenersAdded filterId seeded }
  else w

/-- The `listenerType === 'removed'` branch (source lines 351-354): lazily
create the removed list, empty. -/
def getEntitiesRemoved (w : World) (filterId : String) : World :=
  if (alookup w.listenersRemoved filterId).isNone then
    { w with listenersRemoved := aset w.listenersRemoved filterId [] }
  else w

/-- Source `getEntities(world, componentNames, listenerType)`: memoize the
filter entry on first query (full scan), bump `filterInvocationCount`, charge
the memoized list's length to the current system's per-filter counter when
that system's stats entry exists, then return the memoized list -- or the
lazily created "added" list (seeded with all currently matching entities) or
"removed" list (created empty).  The consecutive source blocks are split
into the stage functions above. -/
def getEntities (w : World) (componentNames : List String)
    (listenerType : Option ListenerType := none) : World × List EntityId :=
  let filterId := String.intercalate "," componentNames
  let w := getEntitiesMemoizeFilter w filterId
  let w := getEntitiesCountInvocation w filterId
  let w := getEntitiesChargeSystem w filterId
  match listenerType with
  | some .added =>
    let w := getEntitiesAdded w filterId
    (w, (alookup w.listenersAdded filterId).getD [])
  | some .removed =>
    let w := getEntitiesRemoved w filterId
    (w, (alookup w.listenersRemoved filterId).getD [])
  | none =>
    (w, (alookup w.filters filterId).getD [])

/-- Source `addSystem(world, fn)`: pushes the per-system stats entry.  The
phase callbacks obtained from `fn` are world-transforming closures and are
passed to the phase drivers explicitly (see `World` doc comment). -/
def addSystem (w : World) (name : String) : World :=
  { w with stats := { w.stats with
      systems := w.stats.systems ++ [{ name := name, timeElapsed := 0, filters := [] }] } }

/-- Source `update(world, dt)`: for each registered system in order, set
`stats.currentSystem` to its index and invoke its `onUpdate` callback.  The
wall-clock accumulation into `timeElapsed` reads an external clock and is not
modeled (the field is left as the callback leaves it). -/
def update (w : World) (onUpdates : List (Int → World → World)) (dt : Int) : World :=
  onUpdates.enum.foldl
    (fun w p =>
      p.2 dt { w with stats := { w.stats with currentSystem := p.1 } })
    w

/-- Source `emptyListeners(world)`: reset every listener list's length to 0
(the arrays keep their identity, which the id model with fresh `[]` reflects
because the lists are looked up by key, never captured). -/
def emptyListeners (w : World) : World :=
  { w with
      listenersAdded := w.listenersAdded.map fun p => (p.1, [])
      listenersRemoved := w.listenersRemoved.map fun p => (p.1, []) }

/-- Splitting a character list at the occurrences of a (nonempty) separator
sequence, as JS `key.split('__@@ECS@@__')` does: `some (pre, post)` when the
separator occurs, with `pre` the segment before its first occurrence and
`post` everything after it; `none` when it does not occur. -/
def breakOnSep (sep : List Char) : List Char → Option (List Char × List Char)
  | [] => none
  | c :: rest =>
    if sep.isPrefixOf (c :: rest) then some ([], (c :: rest).drop sep.length)
    else
      match breakOnSep sep rest with
      | some (pre, post) => some (c :: pre, post)
      | none => none

/-- JS destructuring `const [ entityIdx, componentName ] = key.split('__@@ECS@@__')`
of the source's cleanup loop: the index part and the component-name part
(the first two split segments).  A key without the separator leaves
`componentName` as JS `undefined`, which stringifies to `"undefined"` when
later used as a property key; the only writer, `removeComponentFromEntity`,
always concatenates the separator. -/
def parseRemovalKey (key : String) : String × String :=
  match breakOnSep removalSep.data key.data with
  | some (idx, rest) =>
    (String.mk idx,
      match breakOnSep removalSep.data rest with
      | some (nm, _) => String.mk nm
      | none => String.mk rest)
  | none => (key, "undefined")

/-- The numeric value of a decimal digit character. -/
def digitVal? (c : Char) : Option Nat :=
  if c = '0' then some 0 else if c = '1' then some 1 else if c = '2' then some 2
  else if c = '3' then some 3 else if c = '4' then some 4 else if c = '5' then some 5
  else if c = '6' then some 6 else if c = '7' then some 7 else if c = '8' then some 8
  else if c = '9' then some 9 else none

/-- Folding the remaining digits of a decimal numeral onto an accumulator. -/
def parseDigits : List Char → Nat → Option Nat
  | [], acc => some acc
  | c :: rest, acc => (digitVal? c).bind fun d => parseDigits rest (acc * 10 + d)

/-- The value of a canonical decimal array-index string: all digits, no
leading zero (except `"0"` itself).  These are exactly the strings under
which a JS array stores an element, so `"-1"`, `"007"`, `""` or a
non-numeric string are index strings of no element. -/
def decimalIndex? (s : List Char) : Option Nat :=
  match s with
  | [] => none
  | ['0'] => some 0
  | '0' :: _ => none
  | c :: rest => (digitVal? c).bind fun d => parseDigits rest d

/-- JS subscript `world.entities[entityIdx]` with the split-off index string:
the element at a canonical in-range index, otherwise JS `undefined`
(`none`). -/
def entityAtIndexString (entities : List EntityId) (idxStr : String) : Option EntityId :=
  match decimalIndex? idxStr.data with
  | some n => entities.get? n
  | none => none

/-- One step of cleanup's deferred component-removal loop (source lines
620-625), exactly as written there: `world.entities[entityIdx]` is read
unguarded, and when it is `undefined` -- a stale, negative, or non-canonical
queued index -- `_removeComponent` throws a TypeError reading
`entity[componentName]`, modeled as `none`. -/
def flushComponentsStep (w : World) (key : String) : Option World :=
  match entityAtIndexString w.entities (parseRemovalKey key).1 with
  | some e => some (_removeComponent w e (parseRemovalKey key).2)
  | none => none

/-- Cleanup's component flush loop; the queue is cleared only after the loop
finishes (a throwing step aborts `cleanup` with the world half-mutated,
which `none` models). -/
def flushComponents (w : World) : Option World :=
  (w.removalsComponents.foldlM flushComponentsStep w).map
    fun w' => { w' with removalsComponents := [] }

/-- One step of cleanup's deferred entity-removal loop (source lines
629-632), exactly as written there: an in-range index resolves the entity
and `_removeEntity` splices it out everywhere.  A stale index resolves
`undefined`; `_removeEntity` then decrements no counter (`for..in` over
`undefined` iterates nothing), calls `removeItems(world.entities, -1, 1)`
-- which shifts every element one slot down from `startIdx` and truncates
by one, so the FIRST entity is dropped -- and removes nothing from the
filters (that loop is guarded by `idx >= 0`).  On an empty entity list the
same call sets `length = -1`, throwing a RangeError, modeled as `none`. -/
def flushEntitiesStep (w : World) (idx : Nat) : Option World :=
  match w.entities.get? idx with
  | some e => some (_removeEntity w e)
  | none =>
    match w.entities with
    | [] => none
    | _ :: rest => some { w with entities := rest }

/-- Cleanup's entity flush loop, in stored (descending) queue order; the
queue is cleared after the loop. -/
def flushEntities (w : World) : Option World :=
  (w.removalsEntities.foldlM flushEntitiesStep w).map
    fun w' => { w' with removalsEntities := [] }

/-- Source `cleanup(world)`: clear listeners, flush deferred component
removals, flush deferred entity removals.  `Option`-valued because both
flush loops throw on queued indices that no longer resolve an entity
(reachable through the public API: a deferred removal key recorded with
`indexOf = -1`, or indices gone stale through earlier removals).  The
devtools publish is the out-of-scope observability channel, and
`_resetStats` is deferred by `setTimeout(..., 0)` to the next frame, so
neither is part of this frame's synchronous state change. -/
def cleanup (w : World) : Option World :=
  (flushComponents (emptyListeners w)).bind flushEntities

/-- Spec §8 filter-correctness invariant, bounded form: every memoized filter
list has no duplicates and contains exactly the world entities matching its
key (plus the well-formedness facts that entity ids are distinct and
allocated).  The bounded quantifiers make it decidable on concrete worlds. -/
def FilterOk (w : World) (fid : String) (lst : List EntityId) : Prop :=
  lst.Nodup ∧
  (∀ e ∈ lst, e ∈ w.entities ∧ _matchesFilter fid (getCmp w e) = true) ∧
  (∀ e ∈ w.entities, _matchesFilter fid (getCmp w e) = true → e ∈ lst)

/-- The whole-world invariant of spec §8 / claim C1. -/
def WorldInv (w : World) : Prop :=
  w.entities.Nodup ∧
  (∀ e ∈ w.entities, e < w.store.length) ∧
  (∀ p ∈ w.filters, FilterOk w p.1 p.2)

instance (w : World) (fid : String) (lst : List EntityId) : Decidable (FilterOk w fid lst) := by
  unfold FilterOk; infer_instance

instance (w : World) : Decidable (WorldInv w) := by
  unfold WorldInv; infer_instance

/-! Basic lemmas about the JS-object and array primitives. -/

theorem lookupCmp_setCmp (c : Cmp) (k k' : String) (v : JSValue) :
    lookupCmp (setCmp c k v) k' = if k' = k then v else lookupCmp c k' := by
  induction c with
  | nil =>
    by_cases h : k' = k <;> simp [setCmp, lookupCmp, h] <;> simp [eq_comm] at * <;> simp [h]
  | cons p rest ih =>
    by_cases h1 : p.1 = k
    · by_cases h2 : k = k' <;> simp [setCmp, lookupCmp, h1, h2, eq_comm] <;> simp_all [eq_comm]
    · by_cases h2 : p.1 = k'
      · have : ¬ k' = k := fun he => h1 (h2.trans he)
        simp [setCmp, lookupCmp, h1, h2, this]
      · simp [setCmp, lookupCmp, h1, h2, ih]

theorem lookupCmp_delCmp (c : Cmp) (k k' : String) :
    lookupCmp (delCmp c k) k' = if k' = k then JSValue.vundef else lookupCmp c k' := by
  induction c with
  | nil => simp [delCmp, lookupCmp]
  | cons p rest ih =>
    by_cases h1 : p.1 = k
    · by_cases h2 : k' = k <;> simp_all [delCmp, lookupCmp] <;> simp_all [eq_comm]
    · by_cases h2 : p.1 = k'
      · have : ¬ k' = k := fun he => h1 (h2.trans he)
        simp [delCmp, lookupCmp, h1, h2, this]
      · simp [delCmp, lookupCmp, h1, h2, ih]

theorem alookup_aset {α : Type} (l : List (String × α)) (k k' : String) (v : α) :
    alookup (aset l k v) k' = if k' = k then some v else alookup l k' := by
  induction l with
  | nil =>
    by_cases h : k' = k <;> simp [aset, alookup, h] <;> simp [eq_comm] at * <;> simp [h]
  | cons p rest ih =>
    by_cases h1 : p.1 = k
    · by_cases h2 : k = k' <;> simp [aset, alookup, h1, h2, eq_comm] <;> simp_all [eq_comm]
    · by_cases h2 : p.1 = k'
      · have : ¬ k' = k := fun he => h1 (h2.trans he)
        simp [aset, alookup, h1, h2, this]
      · simp [aset, alookup, h1, h2, ih]

theorem mem_aset {α : Type} (l : List (String × α)) (k : String) (v : α) (p : String × α)
    (hp : p ∈ aset l k v) : p ∈ l ∨ p = (k, v) := by
  induction l with
  | nil => simp [aset] at hp; simp [hp]
  | cons q rest ih =>
    by_cases h1 : q.1 = k
    · simp [aset, h1] at hp
      rcases hp with h | h
      · right; simp [h]
      · left; simp [h]
    · simp [aset, h1] at hp
      rcases hp with h | h
      · left; simp [h]
      · rcases ih h with h' | h'
        · left; simp [h']
        · right; exact h'

theorem removeItems_indexOf_erase (l : List Nat) (a : Nat) :
    removeItems l (l.indexOf a) 1 = l.erase a := by
  induction l with
  | nil => simp [removeItems]
  | cons x xs ih =>
    by_cases h : x = a
    · subst h
      simp [removeItems, List.indexOf_cons, List.erase_cons]
    · have hx : (x == a) = false := by simp [h]
      simp [removeItems, List.indexOf_cons, hx, List.erase_cons, h] at *
      simpa [removeItems] using ih

theorem getD_set_self {α : Type} (l : List α) (i : Nat) (x d : α) (h : i < l.length) :
    (l.set i x).getD i d = x := by
  rw [List.getD_eq_getElem?_getD, List.getElem?_set_self (by omega)]
  simp

theorem getD_set_ne {α : Type} (l : List α) (i j : Nat) (x d : α) (h : j ≠ i) :
    (l.set i x).getD j d = l.getD j d := by
  rw [List.getD_eq_getElem?_getD, List.getElem?_set_ne (by omega), ← List.getD_eq_getElem?_getD]

theorem all_congr_of_eq {α : Type} (l : List α) (p q : α → Bool)
    (h : ∀ x ∈ l, p x = q x) : l.all p = l.all q := by
  induction l with
  | nil => rfl
  | cons x xs ih => simp_all [List.all_cons]

/-! Lemmas about comma splitting and `_hasComponent`. -/

theorem splitCommaChars_ne_nil (l : List Char) : splitCommaChars l ≠ [] := by
  induction l with
  | nil => simp [splitCommaChars]
  | cons ch rest ih =>
    by_cases h : ch = ','
    · simp [splitCommaChars, h]
    · simp only [splitCommaChars, if_neg h]
      cases hs : splitCommaChars rest with
      | nil => simp
      | cons t ts => simp

theorem splitCommaChars_append (a b : List Char) :
    splitCommaChars (a ++ ',' :: b) = splitCommaChars a ++ splitCommaChars b := by
  induction a with
  | nil => simp [splitCommaChars]
  | cons ch rest ih =>
    by_cases h : ch = ','
    · simp [splitCommaChars, h, ih]
    · simp only [List.cons_append, splitCommaChars, if_neg h, List.append_eq]
      rw [ih]
      cases hs : splitCommaChars rest with
      | nil => exact absurd hs (splitCommaChars_ne_nil rest)
      | cons t ts => simp

theorem splitCommaChars_of_not_mem (l : List Char) (h : ',' ∉ l) : splitCommaChars l = [l] := by
  induction l with
  | nil => simp [splitCommaChars]
  | cons ch rest ih =>
    have h1 : ¬ ch = ',' := fun he => h (by simp [he])
    have h2 : ',' ∉ rest := fun hm => h (by simp [hm])
    simp [splitCommaChars, h1, ih h2]

theorem splitCommaChars_head (l : List Char) (tok : List Char) (toks : List (List Char))
    (h : splitCommaChars l = tok :: toks) :
    ∃ post, l = tok ++ post ∧ (post = [] ∨ ∃ p, post = ',' :: p) := by
  induction l generalizing tok toks with
  | nil =>
    simp [splitCommaChars] at h
    exact ⟨[], by simp [h.1], Or.inl rfl⟩
  | cons ch rest ih =>
    by_cases hc : ch = ','
    · subst hc
      simp [splitCommaChars] at h
      exact ⟨',' :: rest, by simp [h.1], Or.inr ⟨rest, rfl⟩⟩
    · simp only [splitCommaChars, if_neg hc] at h
      cases hs : splitCommaChars rest with
      | nil => exact absurd hs (splitCommaChars_ne_nil rest)
      | cons t ts =>
        rw [hs] at h
        have h1 : ch :: t = tok := by
          have := congrArg (fun x => x.headD []) h
          simpa using this
        have h2 : ts = toks := by
          have := congrArg List.tail h
          simpa using this
        obtain ⟨post, hp, hcond⟩ := ih t ts hs
        exact ⟨post, by simp [← h1, hp], hcond⟩

theorem splitCommaChars_tail (l : List Char) (tok : List Char)
    (h : tok ∈ (splitCommaChars l).tail) :
    ∃ pre post, l = pre ++ [','] ++ tok ++ post ∧ (post = [] ∨ ∃ p, post = ',' :: p) := by
  induction l generalizing tok with
  | nil => simp [splitCommaChars] at h
  | cons ch rest ih =>
    by_cases hc : ch = ','
    · subst hc
      simp only [splitCommaChars, if_pos rfl, List.tail_cons] at h
      cases hs : splitCommaChars rest with
      | nil => exact absurd hs (splitCommaChars_ne_nil rest)
      | cons t ts =>
        rw [hs] at h
        rcases List.mem_cons.1 h with h1 | h1
        · subst h1
          obtain ⟨post, hp, hcond⟩ := splitCommaChars_head rest tok ts hs
          exact ⟨[], post, by simp [hp], hcond⟩
        · obtain ⟨pre, post, hp, hcond⟩ := ih tok (by rw [hs]; exact h1)
          exact ⟨',' :: pre, post, by simp [hp], hcond⟩
    · simp only [splitCommaChars, if_neg hc] at h
      cases hs : splitCommaChars rest with
      | nil => exact absurd hs (splitCommaChars_ne_nil rest)
      | cons t ts =>
        rw [hs] at h
        simp only [List.tail_cons] at h
        obtain ⟨pre, post, hp, hcond⟩ := ih tok (by rw [hs]; exact h)
        exact ⟨ch :: pre, post, by simp [hp], hcond⟩

theorem hasComponent_of_mem_split (fid c : String)
    (h : c.data ∈ splitCommaChars fid.data) : _hasComponent fid c = true := by
  unfold _hasComponent
  simp only [Bool.or_eq_true, beq_iff_eq, List.isPrefixOf_iff_prefix,
    List.isSuffixOf_iff_suffix, List.any_eq_true, List.mem_tails]
  cases hs : splitCommaChars fid.data with
  | nil => exact absurd hs (splitCommaChars_ne_nil _)
  | cons t ts =>
    rw [hs] at h
    rcases List.mem_cons.1 h with h1 | h1
    · obtain ⟨post, hp, hcond⟩ := splitCommaChars_head fid.data t ts hs
      rcases hcond with rfl | ⟨p, rfl⟩
      · refine Or.inl (Or.inl (Or.inl ?_))
        apply String.ext
        rw [hp, h1]; simp
      · refine Or.inl (Or.inl (Or.inr ?_))
        exact ⟨p, by rw [hp, h1]; simp⟩
    · have h' : c.data ∈ (splitCommaChars fid.data).tail := by rw [hs]; exact h1
      obtain ⟨pre, post, hp, hcond⟩ := splitCommaChars_tail fid.data c.data h'
      rcases hcond with rfl | ⟨p, rfl⟩
      · refine Or.inl (Or.inr ?_)
        exact ⟨pre, by rw [hp]; simp⟩
      · refine Or.inr ?_
        refine ⟨[','] ++ c.data ++ ',' :: p, ⟨pre, by rw [hp]; simp⟩, ⟨p, by simp⟩⟩

theorem mem_split_of_hasComponent (fid c : String) (hfree : ',' ∉ c.data)
    (h : _hasComponent fid c = true) : c.data ∈ splitCommaChars fid.data := by
  unfold _hasComponent at h
  simp only [Bool.or_eq_true] at h
  rcases h with ((h | h) | h) | h
  · have : fid = c := beq_iff_eq.1 h
    subst this
    rw [splitCommaChars_of_not_mem _ hfree]; simp
  · rw [List.isPrefixOf_iff_prefix] at h
    obtain ⟨t, ht⟩ := h
    have hd : fid.data = c.data ++ ',' :: t := by rw [← ht]; simp
    rw [hd, splitCommaChars_append, splitCommaChars_of_not_mem _ hfree]; simp
  · rw [List.isSuffixOf_iff_suffix] at h
    obtain ⟨t, ht⟩ := h
    have hd : fid.data = t ++ ',' :: c.data := by rw [← ht]; simp
    rw [hd, splitCommaChars_append, splitCommaChars_of_not_mem _ hfree]; simp
  · rw [List.any_eq_true] at h
    obtain ⟨t, htmem, hpre⟩ := h
    rw [List.mem_tails] at htmem
    rw [List.isPrefixOf_iff_prefix] at hpre
    obtain ⟨u, hu⟩ := hpre
    obtain ⟨s, hsv⟩ := htmem
    have hd : fid.data = s ++ ',' :: (c.data ++ ',' :: u) := by rw [← hsv, ← hu]; simp
    rw [hd, splitCommaChars_append, splitCommaChars_append,
        splitCommaChars_of_not_mem _ hfree]
    simp

/-! Lemmas about the matching predicate. -/

theorem _matchesFilter_congr (fid : String) (c₁ c₂ : Cmp) (ig : List String)
    (h : ∀ k, truthy (lookupCmp c₁ k) = truthy (lookupCmp c₂ k)) :
    _matchesFilter fid c₁ ig = _matchesFilter fid c₂ ig := by
  unfold _matchesFilter
  refine all_congr_of_eq _ _ _ fun tok _ => ?_
  simp only [h]

theorem mem_split_of_matches_del (fid n : String) (cmp : Cmp)
    (h0 : _matchesFilter fid cmp = true)
    (h1 : _matchesFilter fid (delCmp cmp n) = false) :
    n.data ∈ splitCommaChars fid.data ∧ startsBang n.data = false := by
  unfold _matchesFilter at h0 h1
  rw [List.all_eq_true] at h0
  rw [List.all_eq_false] at h1
  obtain ⟨tok, htok, hfail⟩ := h1
  have hpass := h0 tok htok
  by_cases hbang : startsBang tok = true
  · exfalso
    simp only [List.contains, List.elem_eq_mem, List.not_mem_nil, decide_False,
      Bool.false_eq_true, if_false, hbang, Bool.true_and, Bool.not_true,
      Bool.and_eq_true, Bool.not_eq_true'] at hfail hpass
    rw [lookupCmp_delCmp] at hfail
    by_cases he : String.mk tok.tail = n
    · simp [he, truthy] at hfail
    · simp [he] at hfail
      simp [hfail] at hpass
  · have hbang' : startsBang tok = false := by simpa using hbang
    simp only [List.contains, List.elem_eq_mem, List.not_mem_nil, decide_False,
      Bool.false_eq_true, if_false, hbang', Bool.false_and, Bool.not_false,
      Bool.true_and, Bool.not_eq_true'] at hfail hpass
    rw [lookupCmp_delCmp] at hfail
    by_cases he : String.mk tok = n
    · have : tok = n.data := by rw [← he]
      rw [this] at htok hbang'
      exact ⟨htok, hbang'⟩
    · simp [he] at hfail
      simp [hfail] at hpass

theorem matches_del_eq_false_of_mem (fid n : String) (cmp : Cmp)
    (hmem : n.data ∈ splitCommaChars fid.data) (hbang : startsBang n.data = false) :
    _matchesFilter fid (delCmp cmp n) = false := by
  unfold _matchesFilter
  rw [List.all_eq_false]
  refine ⟨n.data, hmem, ?_⟩
  have hmk : String.mk n.data = n := rfl
  simp only [List.contains, List.elem_eq_mem, List.not_mem_nil, decide_False,
    Bool.false_eq_true, if_false, hbang, Bool.false_and, Bool.not_false,
    Bool.true_and, hmk]
  rw [lookupCmp_delCmp]
  simp [truthy]

/-! The filter-correctness invariant and its preservation by each mutation. -/

theorem FilterOk_iff (w : World) (fid : String) (lst : List EntityId) :
    FilterOk w fid lst ↔
      lst.Nodup ∧ ∀ e, e ∈ lst ↔ (e ∈ w.entities ∧ _matchesFilter fid (getCmp w e) = true) := by
  constructor
  · rintro ⟨h1, h2, h3⟩
    exact ⟨h1, fun e => ⟨fun he => h2 e he, fun he => h3 e he.1 he.2⟩⟩
  · rintro ⟨h1, h2⟩
    exact ⟨h1, fun e he => (h2 e).1 he, fun e he hm => (h2 e).2 ⟨he, hm⟩⟩

theorem FilterOk_congr (w w' : World) (fid : String) (lst : List EntityId)
    (hent : w'.entities = w.entities) (hst : w'.store = w.store)
    (h : FilterOk w fid lst) : FilterOk w' fid lst := by
  rw [FilterOk_iff] at h ⊢
  simpa [getCmp, hent, hst] using h

theorem FilterOk_recompute (w w' : World) (fid : String) (lst : List EntityId) (eid : EntityId)
    (hfo : FilterOk w fid lst) (hent : w'.entities = w.entities)
    (hcmp : ∀ e, e ≠ eid → getCmp w' e = getCmp w e) (he : eid ∈ w'.entities) :
    FilterOk w' fid
      (if lst.contains eid then
         (if !_matchesFilter fid (getCmp w' eid) then removeItems lst (lst.indexOf eid) 1 else lst)
       else
         (if _matchesFilter fid (getCmp w' eid) then lst ++ [eid] else lst)) := by
  rw [FilterOk_iff] at hfo
  obtain ⟨hnd, hiff⟩ := hfo
  rw [FilterOk_iff]
  have hm_ne : ∀ e, e ≠ eid →
      _matchesFilter fid (getCmp w' e) = _matchesFilter fid (getCmp w e) :=
    fun e hne => by rw [hcmp e hne]
  by_cases hin : eid ∈ lst
  · rw [if_pos (by simpa using hin)]
    by_cases hm : _matchesFilter fid (getCmp w' eid) = true
    · rw [if_neg (by simp [hm])]
      refine ⟨hnd, fun e => ?_⟩
      by_cases hee : e = eid
      · subst hee
        simp [hin, he, hm]
      · rw [hiff e, hm_ne e hee, hent]
    · have hm' : _matchesFilter fid (getCmp w' eid) = false := by
        simpa [Bool.not_eq_true] using hm
      rw [if_pos (by simp [hm']), removeItems_indexOf_erase]
      refine ⟨hnd.erase eid, fun e => ?_⟩
      by_cases hee : e = eid
      · subst hee
        simp [List.Nodup.mem_erase_iff hnd, hm']
      · rw [List.Nodup.mem_erase_iff hnd, hiff e, hm_ne e hee, hent]
        simp [hee]
  · rw [if_neg (by simpa using hin)]
    by_cases hm : _matchesFilter fid (getCmp w' eid) = true
    · rw [if_pos hm]
      constructor
      · simp [List.nodup_append, hnd, hin]
      · intro e
        by_cases hee : e = eid
        · subst hee; simp [he, hm]
        · simp only [List.mem_append, List.mem_singleton, hee, or_false]
          rw [hiff e, hm_ne e hee, hent]
    · rw [if_neg hm]
      refine ⟨hnd, fun e => ?_⟩
      by_cases hee : e = eid
      · subst hee
        simp only [hin, false_iff]
        rintro ⟨-, hmm⟩
        exact hm hmm
      · rw [hiff e, hm_ne e hee, hent]

theorem if_pair {α β : Type} (c : Prop) [Decidable c] (a : α) (x y : β) :
    (if c then (a, x) else (a, y)) = (a, if c then x else y) := by
  by_cases h : c <;> simp [h]

theorem addComponentToEntity_eq_self (w : World) (eid : EntityId) (n : String) (d : JSValue)
    (hdup : truthy (lookupCmp (getCmp w eid) n) = true) :
    addComponentToEntity w eid n d = w := by
  simp [addComponentToEntity, hdup]

theorem addComponentToEntity_proj (w : World) (eid : EntityId) (n : String) (d : JSValue)
    (hdup : truthy (lookupCmp (getCmp w eid) n) = false) :
    (addComponentToEntity w eid n d).entities = w.entities ∧
    (addComponentToEntity w eid n d).store = w.store.set eid (setCmp (getCmp w eid) n d) ∧
    (addComponentToEntity w eid n d).filters = w.filters.map (fun p =>
      if p.2.contains eid then
        (p.1, if !_matchesFilter p.1 (setCmp (getCmp w eid) n d) then
                removeItems p.2 (p.2.indexOf eid) 1 else p.2)
      else
        (p.1, if _matchesFilter p.1 (setCmp (getCmp w eid) n d) then p.2 ++ [eid] else p.2)) := by
  unfold addComponentToEntity
  rw [if_neg (by simp [hdup])]
  exact ⟨rfl, rfl, rfl⟩

theorem addComponentToEntity_WorldInv (w : World) (eid : EntityId) (n : String) (d : JSValue)
    (hw : WorldInv w) (he : eid ∈ w.entities) :
    WorldInv (addComponentToEntity w eid n d) := by
  obtain ⟨hnd, hstore, hfil⟩ := hw
  by_cases hdup : truthy (lookupCmp (getCmp w eid) n) = true
  · rw [addComponentToEntity_eq_self w eid n d hdup]
    exact ⟨hnd, hstore, hfil⟩
  · have hdup' : truthy (lookupCmp (getCmp w eid) n) = false := by
      simpa [Bool.not_eq_true] using hdup
    obtain ⟨hent, hst, hfl⟩ := addComponentToEntity_proj w eid n d hdup'
    have hlen : eid < w.store.length := hstore eid he
    have hself : getCmp (addComponentToEntity w eid n d) eid = setCmp (getCmp w eid) n d := by
      rw [getCmp, hst]; exact getD_set_self _ _ _ _ hlen
    have hne : ∀ e, e ≠ eid → getCmp (addComponentToEntity w eid n d) e = getCmp w e := by
      intro e hee
      rw [getCmp, hst, getD_set_ne _ _ _ _ _ hee]; rfl
    refine ⟨by rw [hent]; exact hnd, ?_, ?_⟩
    · intro e hee
      rw [hst, List.length_set]
      exact hstore e (hent ▸ hee)
    · intro p hp
      rw [hfl] at hp
      obtain ⟨q, hq, rfl⟩ := List.mem_map.1 hp
      have hfo := hfil q hq
      rw [if_pair]
      rw [← hself]
      exact FilterOk_recompute w _ q.1 q.2 eid hfo hent hne (by rw [hent]; exact he)

theorem _removeComponent_proj (w : World) (eid : EntityId) (n : String) :
    (_removeComponent w eid n).entities = w.entities ∧
    (_removeComponent w eid n).store = w.store.set eid (delCmp (getCmp w eid) n) ∧
    (_removeComponent w eid n).filters = w.filters.map (fun p =>
      if _matchesFilter p.1 (delCmp (getCmp w eid) n) && !p.2.contains eid then
        (p.1, p.2 ++ [eid])
      else if _hasComponent p.1 n then
        (p.1, if p.2.contains eid then removeItems p.2 (p.2.indexOf eid) 1 else p.2)
      else p) := by
  unfold _removeComponent
  exact ⟨rfl, rfl, rfl⟩

theorem _removeComponent_WorldInv (w : World) (eid : EntityId) (n : String)
    (hw : WorldInv w) (he : eid ∈ w.entities)
    (hfree : ',' ∉ n.data) (hbang : startsBang n.data = false) :
    WorldInv (_removeComponent w eid n) := by
  obtain ⟨hnd, hstore, hfil⟩ := hw
  obtain ⟨hent, hst, hfl⟩ := _removeComponent_proj w eid n
  have hlen : eid < w.store.length := hstore eid he
  have hself : getCmp (_removeComponent w eid n) eid = delCmp (getCmp w eid) n := by
    rw [getCmp, hst]; exact getD_set_self _ _ _ _ hlen
  have hne : ∀ e, e ≠ eid → getCmp (_removeComponent w eid n) e = getCmp w e := by
    intro e hee
    rw [getCmp, hst, getD_set_ne _ _ _ _ _ hee]; rfl
  refine ⟨by rw [hent]; exact hnd, ?_, ?_⟩
  · intro e hee
    rw [hst, List.length_set]
    exact hstore e (hent ▸ hee)
  · intro p hp
    rw [hfl] at hp
    obtain ⟨q, hq, rfl⟩ := List.mem_map.1 hp
    have hfo := hfil q hq
    rw [FilterOk_iff] at hfo
    obtain ⟨hqnd, hqiff⟩ := hfo
    have hm_ne : ∀ e, e ≠ eid →
        _matchesFilter q.1 (getCmp (_removeComponent w eid n) e) =
          _matchesFilter q.1 (getCmp w e) :=
      fun e hee => by rw [hne e hee]
    by_cases hc1 : (_matchesFilter q.1 (delCmp (getCmp w eid) n) && !q.2.contains eid) = true
    · rw [if_pos hc1]
      rw [Bool.and_eq_true] at hc1
      have hm1 : _matchesFilter q.1 (delCmp (getCmp w eid) n) = true := hc1.1
      have hnin : eid ∉ q.2 := by
        have h2 := hc1.2
        simp only [Bool.not_eq_true'] at h2
        simpa using h2
      rw [FilterOk_iff]
      constructor
      · simp [List.nodup_append, hqnd, hnin]
      · intro e
        by_cases hee : e = eid
        · subst hee
          simp [hent, he, hself, hm1]
        · simp only [List.mem_append, List.mem_singleton, hee, or_false]
          rw [hqiff e, hm_ne e hee, hent]
    · rw [if_neg hc1]
      by_cases hc2 : _hasComponent q.1 n = true
      · rw [if_pos hc2]
        have hm1f : _matchesFilter q.1 (delCmp (getCmp w eid) n) = false :=
          matches_del_eq_false_of_mem q.1 n (getCmp w eid)
            (mem_split_of_hasComponent q.1 n hfree hc2) hbang
        by_cases hin : eid ∈ q.2
        · rw [if_pos (by simpa using hin), removeItems_indexOf_erase]
          rw [FilterOk_iff]
          refine ⟨hqnd.erase eid, fun e => ?_⟩
          by_cases hee : e = eid
          · subst hee
            simp [List.Nodup.mem_erase_iff hqnd, hself, hm1f]
          · rw [List.Nodup.mem_erase_iff hqnd, hqiff e, hm_ne e hee, hent]
            simp [hee]
        · rw [if_neg (by simpa using hin)]
          rw [FilterOk_iff]
          refine ⟨hqnd, fun e => ?_⟩
          by_cases hee : e = eid
          · subst hee
            simp only [hin, false_iff]
            rintro ⟨-, hmm⟩
            rw [hself] at hmm
            simp [hm1f] at hmm
          · rw [hqiff e, hm_ne e hee, hent]
      · rw [if_neg hc2]
        rw [FilterOk_iff]
        refine ⟨hqnd, fun e => ?_⟩
        by_cases hee : e = eid
        · subst hee
          constructor
          · intro hinq
            refine ⟨by rw [hent]; exact he, ?_⟩
            rw [hself]
            by_cases hm1 : _matchesFilter q.1 (delCmp (getCmp w e) n) = true
            · exact hm1
            · exfalso
              have hm1f : _matchesFilter q.1 (delCmp (getCmp w e) n) = false := by
                simpa [Bool.not_eq_true] using hm1
              have hm0 : _matchesFilter q.1 (getCmp w e) = true := ((hqiff e).1 hinq).2
              have hmem := mem_split_of_matches_del q.1 n (getCmp w e) hm0 hm1f
              exact hc2 (hasComponent_of_mem_split q.1 n hmem.1)
          · rintro ⟨-, hmm⟩
            rw [hself] at hmm
            by_contra hnin
            exact hc1 (by simp [hmm, hnin])
        · rw [hqiff e, hm_ne e hee, hent]

theorem _removeEntity_proj (w : World) (eid : EntityId) :
    (_removeEntity w eid).entities = removeItems w.entities (w.entities.indexOf eid) 1 ∧
    (_removeEntity w eid).store = w.store ∧
    (_removeEntity w eid).filters = w.filters.map (fun p =>
      if p.2.contains eid then (p.1, removeItems p.2 (p.2.indexOf eid) 1) else p) := by
  unfold _removeEntity
  exact ⟨rfl, rfl, rfl⟩

theorem _removeEntity_WorldInv (w : World) (eid : EntityId)
    (hw : WorldInv w) : WorldInv (_removeEntity w eid) := by
  obtain ⟨hnd, hstore, hfil⟩ := hw
  obtain ⟨hent, hst, hfl⟩ := _removeEntity_proj w eid
  rw [removeItems_indexOf_erase] at hent
  have hgc : ∀ e, getCmp (_removeEntity w eid) e = getCmp w e := fun e => by
    rw [getCmp, hst]; rfl
  refine ⟨by rw [hent]; exact hnd.erase eid, ?_, ?_⟩
  · intro e hee
    rw [hst]
    exact hstore e (List.mem_of_mem_erase (hent ▸ hee))
  · intro p hp
    rw [hfl] at hp
    obtain ⟨q, hq, rfl⟩ := List.mem_map.1 hp
    have hfo := hfil q hq
    rw [FilterOk_iff] at hfo
    obtain ⟨hqnd, hqiff⟩ := hfo
    by_cases hin : eid ∈ q.2
    · rw [if_pos (by simpa using hin), removeItems_indexOf_erase]
      rw [FilterOk_iff]
      refine ⟨hqnd.erase eid, fun e => ?_⟩
      rw [List.Nodup.mem_erase_iff hqnd, hqiff e, hgc e, hent,
        List.Nodup.mem_erase_iff hnd]
      tauto
    · rw [if_neg (by simpa using hin)]
      rw [FilterOk_iff]
      refine ⟨hqnd, fun e => ?_⟩
      rw [hqiff e, hgc e, hent, List.Nodup.mem_erase_iff hnd]
      constructor
      · rintro ⟨hee, hm⟩
        refine ⟨⟨?_, hee⟩, hm⟩
        rintro rfl
        exact hin ((hqiff _).2 ⟨hee, hm⟩)
      · rintro ⟨⟨-, hee⟩, hm⟩
        exact ⟨hee, hm⟩

theorem removeComponentFromEntity_eq_self (w : World) (eid : EntityId) (n : String) (dfr : Bool)
    (habs : truthy (lookupCmp (getCmp w eid) n) = false) :
    removeComponentFromEntity w eid n dfr = w := by
  simp [removeComponentFromEntity, habs]

theorem removeComponentFromEntity_false_eq (w : World) (eid : EntityId) (n : String)
    (hpres : truthy (lookupCmp (getCmp w eid) n) = true) :
    removeComponentFromEntity w eid n false =
      _removeComponent
        { w with listenersRemoved := w.listenersRemoved.map fun p =>
            if _matchesFilter p.1 (getCmp w eid) &&
               !_matchesFilter p.1 (getCmp w eid) [n] && !p.2.contains eid then
              (p.1, p.2 ++ [eid])
            else p }
        eid n := by
  unfold removeComponentFromEntity
  rw [if_neg (by simp [hpres])]
  rfl

theorem removeComponentFromEntity_false_WorldInv (w : World) (eid : EntityId) (n : String)
    (hw : WorldInv w) (he : eid ∈ w.entities)
    (hfree : ',' ∉ n.data) (hbang : startsBang n.data = false) :
    WorldInv (removeComponentFromEntity w eid n false) := by
  by_cases hpres : truthy (lookupCmp (getCmp w eid) n) = true
  · rw [removeComponentFromEntity_false_eq w eid n hpres]
    apply _removeComponent_WorldInv _ eid n _ he hfree hbang
    obtain ⟨h1, h2, h3⟩ := hw
    exact ⟨h1, h2, fun p hp => FilterOk_congr w _ p.1 p.2 rfl rfl (h3 p hp)⟩
  · rw [removeComponentFromEntity_eq_self w eid n false
      (by simpa [Bool.not_eq_true] using hpres)]
    exact hw

theorem removeEntity_eq_self (w : World) (eid : EntityId) (dfr : Bool)
    (habs : eid ∉ w.entities) : removeEntity w eid dfr = w := by
  unfold removeEntity
  rw [if_pos (show (!w.entities.contains eid) = true by simpa using habs)]

theorem removeEntity_false_eq (w : World) (eid : EntityId)
    (hmem : eid ∈ w.entities) :
    removeEntity w eid false =
      _removeEntity
        { w with listenersRemoved := w.listenersRemoved.map fun p =>
            if _matchesFilter p.1 (getCmp w eid) && !p.2.contains eid then
              (p.1, p.2 ++ [eid])
            else p }
        eid := by
  unfold removeEntity
  rw [if_neg (by simp [hmem])]
  rfl

theorem removeEntity_false_WorldInv (w : World) (eid : EntityId)
    (hw : WorldInv w) : WorldInv (removeEntity w eid false) := by
  by_cases hmem : eid ∈ w.entities
  · rw [removeEntity_false_eq w eid hmem]
    apply _removeEntity_WorldInv
    obtain ⟨h1, h2, h3⟩ := hw
    exact ⟨h1, h2, fun p hp => FilterOk_congr w _ p.1 p.2 rfl rfl (h3 p hp)⟩
  · rw [removeEntity_eq_self w eid false hmem]
    exact hw

/-- Field accounting for stage 1 of `getEntities`: only `filters` changes. -/
theorem getEntitiesMemoizeFilter_proj (w : World) (fid : String) :
    (getEntitiesMemoizeFilter w fid).entities = w.entities ∧
    (getEntitiesMemoizeFilter w fid).store = w.store ∧
    (getEntitiesMemoizeFilter w fid).listenersAdded = w.listenersAdded ∧
    (getEntitiesMemoizeFilter w fid).listenersRemoved = w.listenersRemoved ∧
    (getEntitiesMemoizeFilter w fid).removalsEntities = w.removalsEntities ∧
    (getEntitiesMemoizeFilter w fid).removalsComponents = w.removalsComponents ∧
    (getEntitiesMemoizeFilter w fid).stats = w.stats ∧
    (getEntitiesMemoizeFilter w fid).filters =
      (if (alookup w.filters fid).isNone then
         aset w.filters fid (w.entities.filter fun e => _matchesFilter fid (getCmp w e))
       else w.filters) := by
  unfold getEntitiesMemoizeFilter
  by_cases h : (alookup w.filters fid).isNone = true
  · rw [if_pos h, if_pos h]
    exact ⟨rfl, rfl, rfl, rfl, rfl, rfl, rfl, rfl⟩
  · rw [if_neg h, if_neg h]
    exact ⟨rfl, rfl, rfl, rfl, rfl, rfl, rfl, rfl⟩

/-- Field accounting for stage 2 of `getEntities`: only
`stats.filterInvocationCount` changes. -/
theorem getEntitiesCountInvocation_proj (w : World) (fid : String) :
    (getEntitiesCountInvocation w fid).entities = w.entities ∧
    (getEntitiesCountInvocation w fid).store = w.store ∧
    (getEntitiesCountInvocation w fid).filters = w.filters ∧
    (getEntitiesCountInvocation w fid).listenersAdded = w.listenersAdded ∧
    (getEntitiesCountInvocation w fid).listenersRemoved = w.listenersRemoved ∧
    (getEntitiesCountInvocation w fid).removalsEntities = w.removalsEntities ∧
    (getEntitiesCountInvocation w fid).removalsComponents = w.removalsComponents ∧
    (getEntitiesCountInvocation w fid).stats.systems = w.stats.systems ∧
    (getEntitiesCountInvocation w fid).stats.currentSystem = w.stats.currentSystem ∧
    (getEntitiesCountInvocation w fid).stats.entityCount = w.stats.entityCount ∧
    (getEntitiesCountInvocation w fid).stats.componentCount = w.stats.componentCount ∧
    (getEntitiesCountInvocation w fid).stats.filterInvocationCount =
      aset (if jsFalsyCount (alookup w.stats.filterInvocationCount fid)
            then aset w.stats.filterInvocationCount fid 0
            else w.stats.filterInvocationCount) fid
        ((alookup (if jsFalsyCount (alookup w.stats.filterInvocationCount fid)
                   then aset w.stats.filterInvocationCount fid 0
                   else w.stats.filterInvocationCount) fid).getD 0 + 1) := by
  unfold getEntitiesCountInvocation
  dsimp only
  by_cases h : jsFalsyCount (alookup w.stats.filterInvocationCount fid) = true
  · rw [if_pos h, if_pos h]
    exact ⟨rfl, rfl, rfl, rfl, rfl, rfl, rfl, rfl, rfl, rfl, rfl, rfl⟩
  · rw [if_neg h, if_neg h]
    exact ⟨rfl, rfl, rfl, rfl, rfl, rfl, rfl, rfl, rfl, rfl, rfl, rfl⟩

/-- Field accounting for stage 3 of `getEntities`: only `stats.systems`
changes. -/
theorem getEntitiesChargeSystem_proj (w : World) (fid : String) :
    (getEntitiesChargeSystem w fid).entities = w.entities ∧
    (getEntitiesChargeSystem w fid).store = w.store ∧
    (getEntitiesChargeSystem w fid).filters = w.filters ∧
    (getEntitiesChargeSystem w fid).listenersAdded = w.listenersAdded ∧
    (getEntitiesChargeSystem w fid).listenersRemoved = w.listenersRemoved ∧
    (getEntitiesChargeSystem w fid).removalsEntities = w.removalsEntities ∧
    (getEntitiesChargeSystem w fid).removalsComponents = w.removalsComponents ∧
    (getEntitiesChargeSystem w fid).stats.filterInvocationCount =
      w.stats.filterInvocationCount ∧
    (getEntitiesChargeSystem w fid).stats.currentSystem = w.stats.currentSystem ∧
    (getEntitiesChargeSystem w fid).stats.entityCount = w.stats.entityCount ∧
    (getEntitiesChargeSystem w fid).stats.componentCount = w.stats.componentCount ∧
    (getEntitiesChargeSystem w fid).stats.systems =
      (match w.stats.systems.get? w.stats.currentSystem with
       | some s =>
         w.stats.systems.set w.stats.currentSystem
           (let s' := if jsFalsyCount (alookup s.filters fid)
                      then { s with filters := aset s.filters fid 0 } else s
            let v := aset s'.filters fid
                       ((alookup s'.filters fid).getD 0 +
                         ((alookup w.filters fid).getD []).length)
            { s' with filters := v })
       | none => w.stats.systems) := by
  unfold getEntitiesChargeSystem
  cases hm : w.stats.systems.get? w.stats.currentSystem with
  | none => exact ⟨rfl, rfl, rfl, rfl, rfl, rfl, rfl, rfl, rfl, rfl, rfl, rfl⟩
  | some s => exact ⟨rfl, rfl, rfl, rfl, rfl, rfl, rfl, rfl, rfl, rfl, rfl, rfl⟩

/-- Field accounting for the lazy "added" branch: only `listenersAdded`
changes. -/
theorem getEntitiesAdded_proj (w : World) (fid : String) :
    (getEntitiesAdded w fid).entities = w.entities ∧
    (getEntitiesAdded w fid).store = w.store ∧
    (getEntitiesAdded w fid).filters = w.filters ∧
    (getEntitiesAdded w fid).listenersRemoved = w.listenersRemoved ∧
    (getEntitiesAdded w fid).removalsEntities = w.removalsEntities ∧
    (getEntitiesAdded w fid).removalsComponents = w.removalsComponents ∧
    (getEntitiesAdded w fid).stats = w.stats := by
  unfold getEntitiesAdded
  by_cases h : (alookup w.listenersAdded fid).isNone = true
  · rw [if_pos h]
    exact ⟨rfl, rfl, rfl, rfl, rfl, rfl, rfl⟩
  · rw [if_neg h]
    exact ⟨rfl, rfl, rfl, rfl, rfl, rfl, rfl⟩

/-- Field accounting for the lazy "removed" branch: only `listenersRemoved`
changes. -/
theorem getEntitiesRemoved_proj (w : World) (fid : String) :
    (getEntitiesRemoved w fid).entities = w.entities ∧
    (getEntitiesRemoved w fid).store = w.store ∧
    (getEntitiesRemoved w fid).filters = w.filters ∧
    (getEntitiesRemoved w fid).listenersAdded = w.listenersAdded ∧
    (getEntitiesRemoved w fid).removalsEntities = w.removalsEntities ∧
    (getEntitiesRemoved w fid).removalsComponents = w.removalsComponents ∧
    (getEntitiesRemoved w fid).stats = w.stats := by
  unfold getEntitiesRemoved
  by_cases h : (alookup w.listenersRemoved fid).isNone = true
  · rw [if_pos h]
    exact ⟨rfl, rfl, rfl, rfl, rfl, rfl, rfl⟩
  · rw [if_neg h]
    exact ⟨rfl, rfl, rfl, rfl, rfl, rfl, rfl⟩

theorem getEntities_entities (w : World) (ns : List String) (lt : Option ListenerType) :
    (getEntities w ns lt).1.entities = w.entities := by
  unfold getEntities
  rcases lt with _ | tl
  · dsimp only
    simp only [getEntitiesChargeSystem_proj, getEntitiesCountInvocation_proj,
      getEntitiesMemoizeFilter_proj]
  · cases tl <;> dsimp only <;>
      simp only [getEntitiesAdded_proj, getEntitiesRemoved_proj, getEntitiesChargeSystem_proj,
        getEntitiesCountInvocation_proj, getEntitiesMemoizeFilter_proj]

theorem getEntities_store (w : World) (ns : List String) (lt : Option ListenerType) :
    (getEntities w ns lt).1.store = w.store := by
  unfold getEntities
  rcases lt with _ | tl
  · dsimp only
    simp only [getEntitiesChargeSystem_proj, getEntitiesCountInvocation_proj,
      getEntitiesMemoizeFilter_proj]
  · cases tl <;> dsimp only <;>
      simp only [getEntitiesAdded_proj, getEntitiesRemoved_proj, getEntitiesChargeSystem_proj,
        getEntitiesCountInvocation_proj, getEntitiesMemoizeFilter_proj]

theorem getEntities_filters (w : World) (ns : List String) (lt : Option ListenerType) :
    (getEntities w ns lt).1.filters =
      (if (alookup w.filters (String.intercalate "," ns)).isNone then
         aset w.filters (String.intercalate "," ns)
           (w.entities.filter fun e => _matchesFilter (String.intercalate "," ns) (getCmp w e))
       else w.filters) := by
  unfold getEntities
  rcases lt with _ | tl
  · dsimp only
    simp only [getEntitiesChargeSystem_proj, getEntitiesCountInvocation_proj,
      getEntitiesMemoizeFilter_proj]
  · cases tl <;> dsimp only <;>
      simp only [getEntitiesAdded_proj, getEntitiesRemoved_proj, getEntitiesChargeSystem_proj,
        getEntitiesCountInvocation_proj, getEntitiesMemoizeFilter_proj]

theorem getEntities_WorldInv (w : World) (ns : List String) (lt : Option ListenerType)
    (hw : WorldInv w) : WorldInv (getEntities w ns lt).1 := by
  obtain ⟨hnd, hstore, hfil⟩ := hw
  have hent := getEntities_entities w ns lt
  have hst := getEntities_store w ns lt
  have hfl := getEntities_filters w ns lt
  refine ⟨by rw [hent]; exact hnd, ?_, ?_⟩
  · intro e hee
    rw [hst]
    exact hstore e (hent ▸ hee)
  · intro p hp
    rw [hfl] at hp
    by_cases habs : (alookup w.filters (String.intercalate "," ns)).isNone = true
    · rw [if_pos habs] at hp
      rcases mem_aset _ _ _ p hp with hold | hnew
      · exact FilterOk_congr w _ p.1 p.2 hent hst (hfil p hold)
      · obtain rfl := hnew
        refine FilterOk_congr w _ _ _ hent hst ?_
        rw [FilterOk_iff]
        refine ⟨hnd.filter _, fun e => ?_⟩
        simp [List.mem_filter]
    · rw [if_neg habs] at hp
      exact FilterOk_congr w _ p.1 p.2 hent hst (hfil p hp)

theorem emptyListeners_WorldInv (w : World) (hw : WorldInv w) :
    WorldInv (emptyListeners w) := by
  obtain ⟨h1, h2, h3⟩ := hw
  exact ⟨h1, h2, fun p hp => FilterOk_congr w _ p.1 p.2 rfl rfl (h3 p hp)⟩

theorem _removeEntity_entities (w : World) (eid : EntityId) :
    (_removeEntity w eid).entities = w.entities.erase eid := by
  rw [(_removeEntity_proj w eid).1, removeItems_indexOf_erase]

theorem entityAtIndexString_mem (l : List EntityId) (s : String) (e : EntityId)
    (h : entityAtIndexString l s = some e) : e ∈ l := by
  unfold entityAtIndexString at h
  cases hn : decimalIndex? s.data with
  | none => rw [hn] at h; exact absurd h (by simp)
  | some n => rw [hn] at h; exact List.get?_mem h

theorem flushComponentsStep_ok (w : World) (key : String) (hw : WorldInv w)
    (hk : (entityAtIndexString w.entities (parseRemovalKey key).1).isSome ∧
      ',' ∉ (parseRemovalKey key).2.data ∧ startsBang (parseRemovalKey key).2.data = false) :
    ∃ w', flushComponentsStep w key = some w' ∧ WorldInv w' ∧
      w'.entities = w.entities ∧ w'.removalsEntities = w.removalsEntities := by
  obtain ⟨e, he⟩ := Option.isSome_iff_exists.1 hk.1
  refine ⟨_removeComponent w e (parseRemovalKey key).2, ?_, ?_, rfl, rfl⟩
  · unfold flushComponentsStep
    rw [he]
  · exact _removeComponent_WorldInv w e _ hw (entityAtIndexString_mem _ _ _ he)
      hk.2.1 hk.2.2

theorem foldlM_flushComponentsStep_ok (keys : List String) (w : World) (hw : WorldInv w)
    (hq : ∀ key ∈ keys,
      (entityAtIndexString w.entities (parseRemovalKey key).1).isSome ∧
      ',' ∉ (parseRemovalKey key).2.data ∧ startsBang (parseRemovalKey key).2.data = false) :
    ∃ w', keys.foldlM flushComponentsStep w = some w' ∧ WorldInv w' ∧
      w'.entities = w.entities ∧ w'.removalsEntities = w.removalsEntities := by
  induction keys generalizing w with
  | nil => exact ⟨w, rfl, hw, rfl, rfl⟩
  | cons k ks ih =>
    obtain ⟨w1, hstep, hw1, hent1, hre1⟩ := flushComponentsStep_ok w k hw (hq k (by simp))
    obtain ⟨w2, hfold, hw2, hent2, hre2⟩ := ih w1 hw1 (fun key hk => by
      rw [hent1]
      exact hq key (by simp [hk]))
    refine ⟨w2, ?_, hw2, by rw [hent2, hent1], by rw [hre2, hre1]⟩
    rw [List.foldlM_cons, hstep]
    exact hfold

theorem flushComponents_ok (w : World) (hw : WorldInv w)
    (hq : ∀ key ∈ w.removalsComponents,
      (entityAtIndexString w.entities (parseRemovalKey key).1).isSome ∧
      ',' ∉ (parseRemovalKey key).2.data ∧ startsBang (parseRemovalKey key).2.data = false) :
    ∃ w', flushComponents w = some w' ∧ WorldInv w' ∧
      w'.entities = w.entities ∧ w'.removalsEntities = w.removalsEntities := by
  obtain ⟨w1, hfold, hw1, hent, hre⟩ :=
    foldlM_flushComponentsStep_ok w.removalsComponents w hw hq
  refine ⟨{ w1 with removalsComponents := [] }, ?_, ?_, hent, hre⟩
  · unfold flushComponents
    rw [hfold]
    rfl
  · exact ⟨hw1.1, hw1.2.1, fun p hp => FilterOk_congr _ _ p.1 p.2 rfl rfl (hw1.2.2 p hp)⟩

theorem flushEntitiesStep_in_range (w : World) (idx : Nat) (h : idx < w.entities.length) :
    flushEntitiesStep w idx = some (_removeEntity w (w.entities.get ⟨idx, h⟩)) := by
  unfold flushEntitiesStep
  rw [List.get?_eq_get h]

theorem foldlM_flushEntitiesStep_ok (idxs : List Nat) (w : World) (hw : WorldInv w)
    (hps : idxs.Pairwise (· > ·)) (hin : ∀ i ∈ idxs, i < w.entities.length) :
    ∃ w', idxs.foldlM flushEntitiesStep w = some w' ∧ WorldInv w' := by
  induction idxs generalizing w with
  | nil => exact ⟨w, rfl, hw⟩
  | cons i is ih =>
    have hi : i < w.entities.length := hin i (by simp)
    have hstep := flushEntitiesStep_in_range w i hi
    have hmem : w.entities.get ⟨i, hi⟩ ∈ w.entities := List.get_mem _ _ _
    have hw1 := _removeEntity_WorldInv w (w.entities.get ⟨i, hi⟩) hw
    have hlen : (_removeEntity w (w.entities.get ⟨i, hi⟩)).entities.length =
        w.entities.length - 1 := by
      rw [_removeEntity_entities]
      exact List.length_erase_of_mem hmem
    obtain ⟨hgt, hps2⟩ := List.pairwise_cons.1 hps
    obtain ⟨w', hfold, hw'⟩ := ih (_removeEntity w (w.entities.get ⟨i, hi⟩)) hw1 hps2
      (fun j hj => by
        rw [hlen]
        have h1 := hin j (by simp [hj])
        have h2 := hgt j hj
        omega)
    refine ⟨w', ?_, hw'⟩
    rw [List.foldlM_cons, hstep]
    exact hfold

theorem flushEntities_ok (w : World) (hw : WorldInv w)
    (hps : w.removalsEntities.Pairwise (· > ·))
    (hin : ∀ i ∈ w.removalsEntities, i < w.entities.length) :
    ∃ w', flushEntities w = some w' ∧ WorldInv w' := by
  obtain ⟨w1, hfold, hw1⟩ := foldlM_flushEntitiesStep_ok w.removalsEntities w hw hps hin
  refine ⟨{ w1 with removalsEntities := [] }, ?_, ?_⟩
  · unfold flushEntities
    rw [hfold]
    rfl
  · exact ⟨hw1.1, hw1.2.1, fun p hp => FilterOk_congr _ _ p.1 p.2 rfl rfl (hw1.2.2 p hp)⟩

theorem cleanup_WorldInv (w : World) (hw : WorldInv w)
    (hq : ∀ key ∈ w.removalsComponents,
      (entityAtIndexString w.entities (parseRemovalKey key).1).isSome ∧
      ',' ∉ (parseRemovalKey key).2.data ∧ startsBang (parseRemovalKey key).2.data = false)
    (hps : w.removalsEntities.Pairwise (· > ·))
    (hin : ∀ i ∈ w.removalsEntities, i < w.entities.length) :
    ∃ w', cleanup w = some w' ∧ WorldInv w' := by
  obtain ⟨w1, hfc, hw1, hent1, hre1⟩ :=
    flushComponents_ok (emptyListeners w) (emptyListeners_WorldInv w hw) hq
  obtain ⟨w2, hfe, hw2⟩ := flushEntities_ok w1 hw1
    (by rw [hre1]; exact hps)
    (fun i hi2 => by
      rw [hent1]
      exact hin i (hre1 ▸ hi2))
  refine ⟨w2, ?_, hw2⟩
  unfold cleanup
  rw [hfc]
  exact hfe

/-! Claim C1. -/

/-- A world with one (empty) entity whose pure-negation filter `"!x"` has been
memoized by a query. -/
def c1World1 : World := (getEntities (createEntity createWorld).1 ["!x"] none).1

/-- A world with one entity holding truthy `a`, `b` and a component literally
named `"a,b"`, with the filter `"a,b"` memoized. -/
def c1World2 : World :=
  (getEntities
    (addComponentToEntity
      (addComponentToEntity
        (addComponentToEntity (createEntity createWorld).1 0 "a" (.vobj 0))
        0 "b" (.vobj 0))
      0 "a,b" (.vobj 0))
    ["a", "b"] none).1

/-- A world with one entity holding a component literally named `"!z"`, with
the filter `"!z"` memoized. -/
def c1World3 : World :=
  (getEntities (addComponentToEntity (createEntity createWorld).1 0 "!z" (.vobj 0))
    ["!z"] none).1

/-- C1, counterexample: the claimed invariant `filters[K] = { e ∈ entities :
matches(K, e) }` (after every listed public mutation) is false on the code, in
three ways.  (1) `createEntity` appends the fresh empty entity to `entities`
but inserts it into no memoized filter, so a pure-negation filter such as
`"!x"`, which the empty entity matches, goes stale.  (2) Non-deferred
`removeComponentFromEntity` of a component whose name contains a comma
(`"a,b"`) pattern-matches `_hasComponent` against the filter key `"a,b"` and
splices the entity out of a filter it still matches.  (3) The same for a
component name starting with `!` (`"!z"`): `_hasComponent "!z" "!z"` is true
while deleting the component does not change the match of filter `"!z"`. -/
theorem c1_filter_invariant_counterexample :
    (WorldInv c1World1 ∧ ¬ WorldInv (createEntity c1World1).1) ∧
    (WorldInv c1World2 ∧ ¬ WorldInv (removeComponentFromEntity c1World2 0 "a,b" false)) ∧
    (WorldInv c1World3 ∧ ¬ WorldInv (removeComponentFromEntity c1World3 0 "!z" false)) := by
  decide

/-- C1 (amended): the filter-correctness invariant -- every memoized filter
list holds exactly the matching world entities, without duplicates -- is
preserved by `addComponentToEntity` (on a world entity), by non-deferred
`removeComponentFromEntity` of a component name free of commas and not
starting with `!`, by non-deferred `removeEntity`, and by `getEntities`
(which also establishes it for the newly memoized key); `cleanup` completes
(throws nothing) and preserves it when every queued component-removal key
resolves an in-range entity and names such a component and the queued entity
indices are strictly descending and in range, as the enqueue paths maintain;
`createEntity`, however, breaks the invariant for any memoized filter key
that the fresh empty entity matches (see the counterexample). -/
theorem c1_filter_memoization_invariant_amended :
    (∀ w eid n d, WorldInv w → eid ∈ w.entities →
       WorldInv (addComponentToEntity w eid n d)) ∧
    (∀ w eid n, WorldInv w → eid ∈ w.entities → ',' ∉ n.data → startsBang n.data = false →
       WorldInv (removeComponentFromEntity w eid n false)) ∧
    (∀ w eid, WorldInv w → WorldInv (removeEntity w eid false)) ∧
    (∀ w ns lt, WorldInv w → WorldInv (getEntities w ns lt).1) ∧
    (∀ w, WorldInv w →
       (∀ key ∈ w.removalsComponents,
          (entityAtIndexString w.entities (parseRemovalKey key).1).isSome ∧
          ',' ∉ (parseRemovalKey key).2.data ∧ startsBang (parseRemovalKey key).2.data = false) →
       w.removalsEntities.Pairwise (· > ·) →
       (∀ i ∈ w.removalsEntities, i < w.entities.length) →
       ∃ w', cleanup w = some w' ∧ WorldInv w') :=
  ⟨addComponentToEntity_WorldInv, removeComponentFromEntity_false_WorldInv,
   removeEntity_false_WorldInv, getEntities_WorldInv, cleanup_WorldInv⟩

/-- A world with one entity, used to witness the amended C1 at concrete
inputs. -/
def c1WitnessWorld : World := (createEntity createWorld).1

/-- Witness for the amended C1 at a concrete world with one entity and the
component name `"x"`. -/
theorem c1_filter_memoization_invariant_amended_witness :
    WorldInv (addComponentToEntity c1WitnessWorld 0 "x" (.vobj 0)) ∧
    WorldInv (removeComponentFromEntity c1WitnessWorld 0 "x" false) ∧
    WorldInv (removeEntity c1WitnessWorld 0 false) ∧
    WorldInv (getEntities c1WitnessWorld ["x"] none).1 ∧
    (∃ w', cleanup c1WitnessWorld = some w' ∧ WorldInv w') :=
  ⟨c1_filter_memoization_invariant_amended.1 c1WitnessWorld 0 "x" (.vobj 0)
     (by decide) (by decide),
   c1_filter_memoization_invariant_amended.2.1 c1WitnessWorld 0 "x"
     (by decide) (by decide) (by decide) (by decide),
   c1_filter_memoization_invariant_amended.2.2.1 c1WitnessWorld 0 (by decide),
   c1_filter_memoization_invariant_amended.2.2.2.1 c1WitnessWorld ["x"] none (by decide),
   c1_filter_memoization_invariant_amended.2.2.2.2 c1WitnessWorld (by decide)
     (fun key hk => absurd hk (by simp [c1WitnessWorld, createEntity, createWorld]))
     (by decide) (by decide)⟩

/-! Claim C4. -/

/-- A world with one (empty) entity, for the C4 counterexample. -/
def c4World : World := (createEntity createWorld).1

/-- C4, counterexample: when the first add's data is falsy (`0`), the second
`addComponentToEntity` with the same name is not ignored -- the duplicate-add
guard tests truthiness, so the counter is incremented again and the stored
data is overwritten. -/
theorem c4_duplicate_add_counterexample :
    alookup (addComponentToEntity (addComponentToEntity c4World 0 "x" (.vnum 0))
        0 "x" (.vnum 1)).stats.componentCount "x" ≠
      alookup (addComponentToEntity c4World 0 "x" (.vnum 0)).stats.componentCount "x" ∧
    lookupCmp (getCmp (addComponentToEntity (addComponentToEntity c4World 0 "x" (.vnum 0))
        0 "x" (.vnum 1)) 0) "x" ≠
      lookupCmp (getCmp (addComponentToEntity c4World 0 "x" (.vnum 0)) 0) "x" := by
  decide

/-- C4 (amended): for an allocated entity of the world, if the data supplied
to the FIRST call is truthy (as the default `{}` sentinel always is), then a
second `addComponentToEntity` with the same name is a complete no-op: the
entire world -- in particular the entity's component mapping and
`stats.componentCount[name]` -- is unchanged, for every choice of the second
call's data. -/
theorem c4_duplicate_add_amended (w : World) (eid : EntityId) (n : String) (d1 d2 : JSValue)
    (heid : eid < w.store.length) (h1 : truthy d1 = true) :
    addComponentToEntity (addComponentToEntity w eid n d1) eid n d2 =
      addComponentToEntity w eid n d1 := by
  by_cases hdup : truthy (lookupCmp (getCmp w eid) n) = true
  · rw [addComponentToEntity_eq_self w eid n d1 hdup,
      addComponentToEntity_eq_self w eid n d2 hdup]
  · have hdup' : truthy (lookupCmp (getCmp w eid) n) = false := by
      simpa [Bool.not_eq_true] using hdup
    apply addComponentToEntity_eq_self
    obtain ⟨-, hst, -⟩ := addComponentToEntity_proj w eid n d1 hdup'
    rw [getCmp, hst, getD_set_self _ _ _ _ heid, lookupCmp_setCmp]
    simp [h1]

/-- A world with one entity, for the C4 witness. -/
def c4WitnessWorld : World := (createEntity createWorld).1

/-- Witness for the amended C4 at concrete inputs (truthy first data, a
different second data). -/
theorem c4_duplicate_add_amended_witness :
    addComponentToEntity (addComponentToEntity c4WitnessWorld 0 "x" (.vobj 0)) 0 "x" (.vnum 5) =
      addComponentToEntity c4WitnessWorld 0 "x" (.vobj 0) :=
  c4_duplicate_add_amended c4WitnessWorld 0 "x" (.vobj 0) (.vnum 5) (by decide) (by decide)

/-! Claim C6. -/

/-- C6, counterexample: a bare `"!"` token does not "match nothing" -- the
filter key `"!"` matches an entity holding only component `x`, because the
token checks `entity[""]` (undefined, falsy) and passes. -/
theorem c6_malformed_filter_counterexample :
    _matchesFilter "!" [("x", .vobj 0)] = true := by decide

/-- C6 (amended): malformed filter keys never raise an error (the predicate
is total).  For every entity without a truthy component under the EMPTY name:
a key containing an empty token never matches the entity -- in particular,
when such a key is first memoized over a world of such entities, its filter
entry is seeded empty -- while a bare `"!"` token is no "matches nothing"
token: it imposes no constraint on such entities and matches them. -/
theorem c6_malformed_filter_amended :
    (∀ cmp fid, truthy (lookupCmp cmp "") = false → "" ∈ splitComma fid →
       _matchesFilter fid cmp = false) ∧
    (∀ cmp, truthy (lookupCmp cmp "") = false → _matchesFilter "!" cmp = true) ∧
    (∀ w ns lt, (∀ e ∈ w.entities, truthy (lookupCmp (getCmp w e) "") = false) →
       "" ∈ splitComma (String.intercalate "," ns) →
       (alookup w.filters (String.intercalate "," ns)).isNone = true →
       alookup (getEntities w ns lt).1.filters (String.intercalate "," ns) = some []) := by
  have part1 : ∀ cmp fid, truthy (lookupCmp cmp "") = false → "" ∈ splitComma fid →
      _matchesFilter fid cmp = false := by
    intro cmp fid h hmem
    rw [splitComma, List.mem_map] at hmem
    obtain ⟨tok, htok, hmk⟩ := hmem
    have htok' : tok = [] := by
      have := congrArg String.data hmk
      simpa using this
    subst htok'
    unfold _matchesFilter
    rw [List.all_eq_false]
    refine ⟨[], htok, ?_⟩
    have h' : truthy (lookupCmp cmp (String.mk [])) = false := h
    simp [startsBang, h']
  refine ⟨part1, ?_, ?_⟩
  · intro cmp h
    have h' : truthy (lookupCmp cmp (String.mk [])) = false := h
    have hd : splitCommaChars "!".data = [['!']] := rfl
    unfold _matchesFilter
    rw [hd]
    simp [startsBang, h']
  · intro w ns lt hall hmem habs
    have hfl := getEntities_filters w ns lt
    rw [hfl, if_pos habs, alookup_aset]
    rw [if_pos rfl]
    congr 1
    rw [List.filter_eq_nil]
    intro e he
    simp [part1 (getCmp w e) _ (hall e he) hmem]

/-- A world with one entity holding only `x`, for the C6 witness. -/
def c6WitnessWorld : World :=
  addComponentToEntity (createEntity createWorld).1 0 "x" (.vobj 0)

/-- Witness for the amended C6 at concrete inputs: the key `",x"` (empty
first token) never matches the entity, `"!"` does match it, and memoizing
`["", "x"]` seeds an empty filter entry. -/
theorem c6_malformed_filter_amended_witness :
    _matchesFilter ",x" [("x", JSValue.vobj 0)] = false ∧
    _matchesFilter "!" [("x", JSValue.vobj 0)] = true ∧
    alookup (getEntities c6WitnessWorld ["", "x"] none).1.filters
      (String.intercalate "," ["", "x"]) = some [] :=
  ⟨c6_malformed_filter_amended.1 [("x", JSValue.vobj 0)] ",x" (by decide) (by decide),
   c6_malformed_filter_amended.2.1 [("x", JSValue.vobj 0)] (by decide),
   c6_malformed_filter_amended.2.2 c6WitnessWorld ["", "x"] none (by decide) (by decide)
     (by decide)⟩

/-! Claim C7. -/

/-- C7: already-in-desired-state removals are silent no-ops returning the
world unchanged in every part: `removeComponentFromEntity` when the entity
has no truthy value under the name (in particular when the component is
absent), and `removeEntity` when the entity is not in `world.entities`,
for either value of the deferred flag. -/
theorem c7_silent_noop_removals :
    (∀ w eid n dfr, truthy (lookupCmp (getCmp w eid) n) = false →
       removeComponentFromEntity w eid n dfr = w) ∧
    (∀ w eid dfr, eid ∉ w.entities → removeEntity w eid dfr = w) :=
  ⟨removeComponentFromEntity_eq_self, removeEntity_eq_self⟩

/-- A world with one (empty) entity, for the C7 witness. -/
def c7WitnessWorld : World := (createEntity createWorld).1

/-- Witness for C7 at concrete inputs: removing an absent component and
removing an entity not in the world both return the world unchanged. -/
theorem c7_silent_noop_removals_witness :
    removeComponentFromEntity c7WitnessWorld 0 "x" true = c7WitnessWorld ∧
    removeEntity c7WitnessWorld 5 true = c7WitnessWorld :=
  ⟨c7_silent_noop_removals.1 c7WitnessWorld 0 "x" true (by decide),
   c7_silent_noop_removals.2 c7WitnessWorld 5 true (by decide)⟩

/-! Claim C10. -/

/-- Projection of the counter update performed by a non-duplicate
`addComponentToEntity`. -/
theorem addComponentToEntity_componentCount (w : World) (eid : EntityId) (n : String)
    (d : JSValue) (hdup : truthy (lookupCmp (getCmp w eid) n) = false) :
    (addComponentToEntity w eid n d).stats.componentCount =
      aset (if !ccIsInteger w.stats.componentCount n
            then aset w.stats.componentCount n 0 else w.stats.componentCount) n
        ((alookup (if !ccIsInteger w.stats.componentCount n
                   then aset w.stats.componentCount n 0 else w.stats.componentCount) n).getD 0
          + 1) := by
  unfold addComponentToEntity
  rw [if_neg (by simp [hdup])]
  dsimp only
  rw [if_pos (by simp [hdup])]

/-- C10: falsy component data behaves as component absence at the public
interface.  (1) The matching predicate treats a component stored with falsy
data exactly like a deleted one, for every filter key and ignore list.
(2) A non-negated token over a falsy-valued (or absent) component makes the
filter fail.  (3) `addComponentToEntity` does not treat a falsy-valued
component as a duplicate: it overwrites the data and increments the counter.
(4) `removeComponentFromEntity` on a falsy-valued component is a no-op, as
for an absent one. -/
theorem c10_falsy_component_absence :
    (∀ fid cmp ig c v, truthy v = false →
       _matchesFilter fid (setCmp cmp c v) ig = _matchesFilter fid (delCmp cmp c) ig) ∧
    (∀ fid cmp n, n ∈ splitComma fid → startsBang n.data = false →
       truthy (lookupCmp cmp n) = false → _matchesFilter fid cmp = false) ∧
    (∀ w eid n d, eid < w.store.length → truthy (lookupCmp (getCmp w eid) n) = false →
       lookupCmp (getCmp (addComponentToEntity w eid n d) eid) n = d ∧
       alookup (addComponentToEntity w eid n d).stats.componentCount n =
         some ((alookup w.stats.componentCount n).getD 0 + 1)) ∧
    (∀ w eid n dfr, truthy (lookupCmp (getCmp w eid) n) = false →
       removeComponentFromEntity w eid n dfr = w) := by
  refine ⟨?_, ?_, ?_, removeComponentFromEntity_eq_self⟩
  · intro fid cmp ig c v hv
    apply _matchesFilter_congr
    intro k
    rw [lookupCmp_setCmp, lookupCmp_delCmp]
    by_cases hk : k = c
    · rw [if_pos hk, if_pos hk, hv]
      rfl
    · rw [if_neg hk, if_neg hk]
  · intro fid cmp n hmem hbang habs
    rw [splitComma, List.mem_map] at hmem
    obtain ⟨tok, htok, hmk⟩ := hmem
    have htok' : tok = n.data := by rw [← hmk]
    subst htok'
    unfold _matchesFilter
    rw [List.all_eq_false]
    refine ⟨n.data, htok, ?_⟩
    have hmk' : String.mk n.data = n := rfl
    simp [hbang, hmk', habs]
  · intro w eid n d heid hdup
    constructor
    · obtain ⟨-, hst, -⟩ := addComponentToEntity_proj w eid n d hdup
      rw [getCmp, hst, getD_set_self _ _ _ _ heid, lookupCmp_setCmp]
      simp
    · rw [addComponentToEntity_componentCount w eid n d hdup, alookup_aset, if_pos rfl]
      congr 2
      by_cases hi : ccIsInteger w.stats.componentCount n = true
      · rw [if_neg (by simp [hi])]
      · have hi' : (alookup w.stats.componentCount n).isSome = false := by
          simpa [ccIsInteger] using hi
        rw [if_pos (by simp [ccIsInteger, hi'])]
        rw [alookup_aset, if_pos rfl]
        have hnone : alookup w.stats.componentCount n = none := by
          cases halo : alookup w.stats.componentCount n with
          | none => rfl
          | some v => rw [halo] at hi'; simp at hi'
        simp [hnone]
  
/-- A world with one entity holding `x` with falsy data `0`, for the C10
witness. -/
def c10WitnessWorld : World :=
  addComponentToEntity (createEntity createWorld).1 0 "x" (.vnum 0)

/-- Witness for C10 at concrete inputs. -/
theorem c10_falsy_component_absence_witness :
    _matchesFilter "a" (setCmp [] "a" (.vnum 0)) [] = _matchesFilter "a" (delCmp [] "a") [] ∧
    _matchesFilter "x" [("x", JSValue.vnum 0)] = false ∧
    (lookupCmp (getCmp (addComponentToEntity c10WitnessWorld 0 "x" (.vnum 7)) 0) "x" =
        .vnum 7 ∧
      alookup (addComponentToEntity c10WitnessWorld 0 "x" (.vnum 7)).stats.componentCount "x" =
        some ((alookup c10WitnessWorld.stats.componentCount "x").getD 0 + 1)) ∧
    removeComponentFromEntity c10WitnessWorld 0 "x" true = c10WitnessWorld :=
  ⟨c10_falsy_component_absence.1 "a" [] [] "a" (.vnum 0) (by decide),
   c10_falsy_component_absence.2.1 "x" [("x", JSValue.vnum 0)] "x" (by decide) (by decide)
     (by decide),
   c10_falsy_component_absence.2.2.1 c10WitnessWorld 0 "x" (.vnum 7) (by decide) (by decide),
   c10_falsy_component_absence.2.2.2 c10WitnessWorld 0 "x" true (by decide)⟩

/-! Claim C8. -/

theorem orderedInsert_mem (l : List Nat) (v x : Nat) :
    x ∈ orderedInsert l v ↔ x = v ∨ x ∈ l := by
  induction l with
  | nil => simp [orderedInsert]
  | cons a as ih =>
    by_cases h : a ≤ v
    · simp [orderedInsert, h]
    · simp [orderedInsert, h, ih]
      tauto

theorem orderedInsert_sorted (l : List Nat) (v : Nat) (h : l.Sorted (· ≥ ·)) :
    (orderedInsert l v).Sorted (· ≥ ·) := by
  induction l with
  | nil => simp [orderedInsert]
  | cons a as ih =>
    rw [List.sorted_cons] at h
    obtain ⟨ha, has⟩ := h
    by_cases hv : a ≤ v
    · unfold orderedInsert
      rw [if_pos hv, List.sorted_cons]
      refine ⟨?_, by rw [List.sorted_cons]; exact ⟨ha, has⟩⟩
      intro b hb
      rcases List.mem_cons.1 hb with rfl | hb
      · exact hv
      · exact le_trans (ha b hb) hv
    · unfold orderedInsert
      rw [if_neg hv, List.sorted_cons]
      refine ⟨?_, ih has⟩
      intro b hb
      rcases (orderedInsert_mem as v b).1 hb with rfl | hb
      · exact le_of_not_le hv
      · exact ha b hb

/-- Field-level description of a deferred `removeEntity` on a world entity:
the queue gains the entity's index in (descending-)sorted position iff it is
not already queued, `entityCount` is decremented exactly then, and
`entities`, `filters` and the component-removal queue are untouched. -/
theorem removeEntity_deferred_fields (w : World) (eid : EntityId) (hmem : eid ∈ w.entities) :
    (removeEntity w eid true).entities = w.entities ∧
    (removeEntity w eid true).filters = w.filters ∧
    (removeEntity w eid true).removalsComponents = w.removalsComponents ∧
    (removeEntity w eid true).removalsEntities =
      (if w.removalsEntities.contains (w.entities.indexOf eid) then w.removalsEntities
       else orderedInsert w.removalsEntities (w.entities.indexOf eid)) ∧
    (removeEntity w eid true).stats.entityCount =
      (if w.removalsEntities.contains (w.entities.indexOf eid) then w.stats.entityCount
       else w.stats.entityCount - 1) := by
  unfold removeEntity
  rw [if_neg (by simp [hmem])]
  dsimp only
  rw [if_pos (show true = true from rfl)]
  by_cases hq : (w.entities.indexOf eid) ∈ w.removalsEntities
  · have hqc : w.removalsEntities.contains (w.entities.indexOf eid) = true := by simpa using hq
    rw [if_neg (by simp [hq]), if_pos hqc, if_pos hqc]
    exact ⟨rfl, rfl, rfl, rfl, rfl⟩
  · have hqc : w.removalsEntities.contains (w.entities.indexOf eid) = false := by simpa using hq
    rw [if_pos (by simp [hq]), if_neg (by simp [hq]), if_neg (by simp [hq])]
    exact ⟨rfl, rfl, rfl, rfl, rfl⟩

/-- C8: for an entity in `world.entities`, deferred `removeEntity` inserts
the entity's index into the removal queue at its descending-sorted position
iff the index is not already queued (preserving descending sortedness), and
decrements `stats.entityCount` exactly when the index is newly enqueued --
so a second deferred removal of the same entity changes neither the queue
nor the count; meanwhile `world.entities` and every memoized filter entry
are untouched. -/
theorem c8_deferred_entity_removal (w : World) (eid : EntityId) (hmem : eid ∈ w.entities) :
    (w.entities.indexOf eid ∈ w.removalsEntities →
       (removeEntity w eid true).removalsEntities = w.removalsEntities ∧
       (removeEntity w eid true).stats.entityCount = w.stats.entityCount) ∧
    (w.entities.indexOf eid ∉ w.removalsEntities →
       (removeEntity w eid true).removalsEntities =
         orderedInsert w.removalsEntities (w.entities.indexOf eid) ∧
       (removeEntity w eid true).stats.entityCount = w.stats.entityCount - 1 ∧
       w.entities.indexOf eid ∈ (removeEntity w eid true).removalsEntities ∧
       (w.removalsEntities.Sorted (· ≥ ·) →
         (removeEntity w eid true).removalsEntities.Sorted (· ≥ ·))) ∧
    (removeEntity w eid true).entities = w.entities ∧
    (removeEntity w eid true).filters = w.filters ∧
    (removeEntity (removeEntity w eid true) eid true).removalsEntities =
      (removeEntity w eid true).removalsEntities ∧
    (removeEntity (removeEntity w eid true) eid true).stats.entityCount =
      (removeEntity w eid true).stats.entityCount := by
  obtain ⟨hent, hfl, hrc, hre, hcnt⟩ := removeEntity_deferred_fields w eid hmem
  have hmem' : eid ∈ (removeEntity w eid true).entities := by rw [hent]; exact hmem
  obtain ⟨hent2, hfl2, hrc2, hre2, hcnt2⟩ :=
    removeEntity_deferred_fields (removeEntity w eid true) eid hmem'
  have hidx2 : (removeEntity w eid true).entities.indexOf eid = w.entities.indexOf eid := by
    rw [hent]
  refine ⟨?_, ?_, hent, hfl, ?_, ?_⟩
  · intro hq
    have hq' : w.removalsEntities.contains (w.entities.indexOf eid) = true := by simpa using hq
    rw [hre, if_pos hq', hcnt, if_pos hq']
    exact ⟨rfl, rfl⟩
  · intro hq
    rw [hre, if_neg (by simp [hq]), hcnt, if_neg (by simp [hq])]
    refine ⟨rfl, rfl, ?_, fun hs => orderedInsert_sorted _ _ hs⟩
    rw [orderedInsert_mem]
    exact Or.inl rfl
  · rw [hre2, hidx2]
    have hin2 : (removeEntity w eid true).removalsEntities.contains
        (w.entities.indexOf eid) = true := by
      rw [hre]
      by_cases hq : (w.entities.indexOf eid) ∈ w.removalsEntities
      · rw [if_pos (by simpa using hq)]; simpa using hq
      · rw [if_neg (by simp [hq])]
        simp [orderedInsert_mem]
    rw [if_pos hin2]
  · rw [hcnt2, hidx2]
    have hin2 : (removeEntity w eid true).removalsEntities.contains
        (w.entities.indexOf eid) = true := by
      rw [hre]
      by_cases hq : (w.entities.indexOf eid) ∈ w.removalsEntities
      · rw [if_pos (by simpa using hq)]; simpa using hq
      · rw [if_neg (by simp [hq])]
        simp [orderedInsert_mem]
    rw [if_pos hin2]

/-- A world with two entities and a deferred-removal queue already holding
index 1, for the C8 witness. -/
def c8WitnessWorld : World :=
  { (createEntity (createEntity createWorld).1).1 with removalsEntities := [1] }

/-- Witness for C8 at a concrete world (entity 0 newly enqueued at index 0;
note index 1 is already queued so a deferred removal of entity 1 would be
ignored). -/
theorem c8_deferred_entity_removal_witness :
    (removeEntity c8WitnessWorld 0 true).removalsEntities =
      orderedInsert c8WitnessWorld.removalsEntities (c8WitnessWorld.entities.indexOf 0) ∧
    (removeEntity c8WitnessWorld 0 true).stats.entityCount =
      c8WitnessWorld.stats.entityCount - 1 ∧
    (removeEntity c8WitnessWorld 0 true).entities = c8WitnessWorld.entities ∧
    (removeEntity (removeEntity c8WitnessWorld 0 true) 0 true).stats.entityCount =
      (removeEntity c8WitnessWorld 0 true).stats.entityCount := by
  have h := c8_deferred_entity_removal c8WitnessWorld 0 (by decide)
  have h2 := h.2.1 (by decide)
  exact ⟨h2.1, h2.2.1, h.2.2.1, h.2.2.2.2.2⟩

/-! Claim C2. -/

theorem flushComponents_of_nil (w : World) (hrc : w.removalsComponents = []) :
    flushComponents w = some { w with removalsComponents := [] } := by
  unfold flushComponents
  rw [hrc]
  rfl

theorem flushEntitiesStep_eq (w : World) (idx : Nat) (e : EntityId)
    (h : idx < w.entities.length) (hget : w.entities.getD idx 0 = e) :
    flushEntitiesStep w idx = some (_removeEntity w e) := by
  have hq : w.entities.get? idx = some e := by
    rw [List.get?_eq_get h, List.get_eq_getElem, ← List.getD_eq_getElem w.entities 0 h, hget]
  unfold flushEntitiesStep
  rw [hq]

/-- Cleanup on a world whose deferred entity queue is exactly `[3, 1]` (and
whose component queue is empty) removes precisely the entities at indices 3
and 1: higher index first, so the later, lower index still denotes the same
entity. -/
theorem cleanup_entities_31 (w : World) (a b c d : EntityId) (t : List EntityId)
    (hE : w.entities = a :: b :: c :: d :: t)
    (hnd : w.entities.Nodup)
    (hre : w.removalsEntities = [3, 1]) (hrc : w.removalsComponents = []) :
    (cleanup w).map World.entities = some (a :: c :: t) := by
  rw [hE] at hnd
  obtain ⟨ha, hnd1⟩ := List.nodup_cons.1 hnd
  obtain ⟨hb, hnd2⟩ := List.nodup_cons.1 hnd1
  obtain ⟨hc, hnd3⟩ := List.nodup_cons.1 hnd2
  obtain ⟨hd, hndt⟩ := List.nodup_cons.1 hnd3
  have had : a ≠ d := fun h => ha (by simp [h])
  have hbd : b ≠ d := fun h => hb (by simp [h])
  have hcd : c ≠ d := fun h => hc (by simp [h])
  have hab : a ≠ b := fun h => ha (by simp [h])
  unfold cleanup
  rw [flushComponents_of_nil (emptyListeners w) hrc]
  set W0 : World := { emptyListeners w with removalsComponents := [] } with hW0
  have hW0ent : W0.entities = a :: b :: c :: d :: t := hE
  have hW0re : W0.removalsEntities = [3, 1] := hre
  have h3 : (3 : Nat) < W0.entities.length := by rw [hW0ent]; simp
  have hget3 : W0.entities.getD 3 0 = d := by rw [hW0ent]; rfl
  have hstep1 : flushEntitiesStep W0 3 = some (_removeEntity W0 d) :=
    flushEntitiesStep_eq W0 3 d h3 hget3
  have hW1ent : (_removeEntity W0 d).entities = a :: b :: c :: t := by
    rw [_removeEntity_entities, hW0ent]
    simp [List.erase_cons, had, hbd, hcd]
  have h1 : (1 : Nat) < (_removeEntity W0 d).entities.length := by rw [hW1ent]; simp
  have hget1 : (_removeEntity W0 d).entities.getD 1 0 = b := by rw [hW1ent]; rfl
  have hstep2 : flushEntitiesStep (_removeEntity W0 d) 1 =
      some (_removeEntity (_removeEntity W0 d) b) :=
    flushEntitiesStep_eq (_removeEntity W0 d) 1 b h1 hget1
  have hfold : List.foldlM flushEntitiesStep W0 [3, 1] =
      some (_removeEntity (_removeEntity W0 d) b) := by
    rw [List.foldlM_cons, hstep1]
    show List.foldlM flushEntitiesStep (_removeEntity W0 d) [1] =
      some (_removeEntity (_removeEntity W0 d) b)
    rw [List.foldlM_cons, hstep2]
    show List.foldlM flushEntitiesStep (_removeEntity (_removeEntity W0 d) b) [] =
      some (_removeEntity (_removeEntity W0 d) b)
    rfl
  show (Option.map World.entities (flushEntities W0)) = some (a :: c :: t)
  unfold flushEntities
  rw [hW0re, hfold]
  show some (_removeEntity (_removeEntity W0 d) b).entities = some (a :: c :: t)
  rw [_removeEntity_entities, hW1ent]
  simp [List.erase_cons, hab]

/-- C2 (spec-modelled `ordered-insert`): on a world with at least four
entities and empty deferred queues, enqueueing deferred removals of the
entities at indices 3 and 1 -- in either call order -- and then running
`cleanup` removes exactly those two entities: the final entity list is the
original one with positions 1 and 3 dropped, in original relative order;
in particular the entity originally at index 2 survives and neither removed
entity remains, with no duplication. -/
theorem c2_deferred_removal_ordering (w : World) (a b c d : EntityId) (t : List EntityId)
    (hE : w.entities = a :: b :: c :: d :: t) (hnd : w.entities.Nodup)
    (hre : w.removalsEntities = []) (hrc : w.removalsComponents = []) :
    (cleanup (removeEntity (removeEntity w d true) b true)).map World.entities =
      some (a :: c :: t) ∧
    (cleanup (removeEntity (removeEntity w b true) d true)).map World.entities =
      some (a :: c :: t) ∧
    b ∉ (a :: c :: t) ∧ d ∉ (a :: c :: t) ∧ c ∈ (a :: c :: t) ∧ (a :: c :: t).Nodup := by
  have hnd' := hnd
  rw [hE] at hnd'
  obtain ⟨ha, hnd1⟩ := List.nodup_cons.1 hnd'
  obtain ⟨hb, hnd2⟩ := List.nodup_cons.1 hnd1
  obtain ⟨hc, hnd3⟩ := List.nodup_cons.1 hnd2
  obtain ⟨hd, hndt⟩ := List.nodup_cons.1 hnd3
  have had : a ≠ d := fun h => ha (by simp [h])
  have hbd : b ≠ d := fun h => hb (by simp [h])
  have hcd : c ≠ d := fun h => hc (by simp [h])
  have hab : a ≠ b := fun h => ha (by simp [h])
  have hac : a ≠ c := fun h => ha (by simp [h])
  have hbc : b ≠ c := fun h => hb (by simp [h])
  have hat : a ∉ t := fun h => ha (by simp [h])
  have hbt : b ∉ t := fun h => hb (by simp [h])
  have hct : c ∉ t := fun h => hc (by simp [h])
  have hdmem : d ∈ w.entities := by rw [hE]; simp
  have hbmem : b ∈ w.entities := by rw [hE]; simp
  have hidxd : w.entities.indexOf d = 3 := by
    rw [hE]
    simp [List.indexOf_cons, had, hbd, hcd]
  have hidxb : w.entities.indexOf b = 1 := by
    rw [hE]
    simp [List.indexOf_cons, hab]
  refine ⟨?_, ?_, ?_, ?_, by simp, ?_⟩
  · -- order: d (index 3) first, then b (index 1)
    obtain ⟨e1, f1, rc1, re1, -⟩ := removeEntity_deferred_fields w d hdmem
    rw [hidxd, hre] at re1
    rw [if_neg (by simp)] at re1
    have hre1 : (removeEntity w d true).removalsEntities = [3] := by
      rw [re1]; rfl
    have hbmem1 : b ∈ (removeEntity w d true).entities := by rw [e1]; exact hbmem
    obtain ⟨e2, f2, rc2, re2, -⟩ :=
      removeEntity_deferred_fields (removeEntity w d true) b hbmem1
    rw [e1, hidxb, hre1] at re2
    rw [if_neg (by simp)] at re2
    have hre2 : (removeEntity (removeEntity w d true) b true).removalsEntities = [3, 1] := by
      rw [re2]; rfl
    exact cleanup_entities_31 _ a b c d t (by rw [e2, e1, hE]) (by rw [e2, e1]; exact hE ▸ hnd)
      hre2 (by rw [rc2, rc1]; exact hrc)
  · -- order: b (index 1) first, then d (index 3)
    obtain ⟨e1, f1, rc1, re1, -⟩ := removeEntity_deferred_fields w b hbmem
    rw [hidxb, hre] at re1
    rw [if_neg (by simp)] at re1
    have hre1 : (removeEntity w b true).removalsEntities = [1] := by
      rw [re1]; rfl
    have hdmem1 : d ∈ (removeEntity w b true).entities := by rw [e1]; exact hdmem
    obtain ⟨e2, f2, rc2, re2, -⟩ :=
      removeEntity_deferred_fields (removeEntity w b true) d hdmem1
    rw [e1, hidxd, hre1] at re2
    rw [if_neg (by simp)] at re2
    have hre2 : (removeEntity (removeEntity w b true) d true).removalsEntities = [3, 1] := by
      rw [re2]; rfl
    exact cleanup_entities_31 _ a b c d t (by rw [e2, e1, hE]) (by rw [e2, e1]; exact hE ▸ hnd)
      hre2 (by rw [rc2, rc1]; exact hrc)
  · simp [hab.symm, hbc, hbt]
  · simp [had.symm, hcd.symm, hd]
  · rw [List.nodup_cons, List.nodup_cons]
    exact ⟨by simp [hac, hat], by simp [hct], hndt⟩

/-- A world with five entities, for the C2 witness. -/
def c2WitnessWorld : World :=
  (createEntity (createEntity (createEntity (createEntity (createEntity
    createWorld).1).1).1).1).1

/-- Witness for C2 at a concrete five-entity world: removing the entities at
indices 3 and 1 (either enqueue order) and cleaning up leaves entities
0, 2, 4. -/
theorem c2_deferred_removal_ordering_witness :
    (cleanup (removeEntity (removeEntity c2WitnessWorld 3 true) 1 true)).map World.entities =
      some (0 :: 2 :: [4]) ∧
    (cleanup (removeEntity (removeEntity c2WitnessWorld 1 true) 3 true)).map World.entities =
      some (0 :: 2 :: [4]) ∧
    (1 : EntityId) ∉ (0 :: 2 :: [4] : List EntityId) ∧
    (3 : EntityId) ∉ (0 :: 2 :: [4] : List EntityId) ∧
    (2 : EntityId) ∈ (0 :: 2 :: [4] : List EntityId) ∧
    ((0 :: 2 :: [4] : List EntityId)).Nodup :=
  c2_deferred_removal_ordering c2WitnessWorld 0 1 2 3 [4]
    (by decide) (by decide) (by decide) (by decide)

/-! Claim C3. -/

/-- Looking up a key after a key-preserving map over a JS dictionary. -/
theorem alookup_map_pair {α β : Type} (l : List (String × α)) (k : String) (f : String → α → β) :
    alookup (l.map fun q => (q.1, f q.1 q.2)) k = (alookup l k).map (f k) := by
  induction l with
  | nil => rfl
  | cons q rest ih =>
    by_cases hk : q.1 = k
    · subst hk
      simp [alookup]
    · simp [alookup, hk, ih]

/-- Projection of the "added"-listener maintenance performed by a
non-duplicate `addComponentToEntity`. -/
theorem addComponentToEntity_listenersAdded (w : World) (eid : EntityId) (n : String)
    (d : JSValue) (hdup : truthy (lookupCmp (getCmp w eid) n) = false) :
    (addComponentToEntity w eid n d).listenersAdded = w.listenersAdded.map (fun p =>
      (p.1,
        if (_matchesFilter p.1 (setCmp (getCmp w eid) n d) &&
            !_matchesFilter p.1 (setCmp (getCmp w eid) n d) [n]) && !p.2.contains eid
        then p.2 ++ [eid] else p.2)) := by
  unfold addComponentToEntity
  rw [if_neg (by simp [hdup])]

/-- The "added" list of a single filter key after a non-duplicate
`addComponentToEntity`: the entity is appended iff it now matches the key,
would not match it were the new component absent (the ignore-list test), and
is not already listed. -/
theorem addComponentToEntity_added_at (w : World) (eid : EntityId) (n : String) (d : JSValue)
    (fid : String) (lst : List EntityId)
    (hdup : truthy (lookupCmp (getCmp w eid) n) = false)
    (hl : alookup w.listenersAdded fid = some lst) :
    alookup (addComponentToEntity w eid n d).listenersAdded fid =
      some (if (_matchesFilter fid (setCmp (getCmp w eid) n d) &&
                !_matchesFilter fid (setCmp (getCmp w eid) n d) [n]) && !lst.contains eid
            then lst ++ [eid] else lst) := by
  rw [addComponentToEntity_listenersAdded w eid n d hdup]
  rw [alookup_map_pair w.listenersAdded fid
    (fun s l => if (_matchesFilter s (setCmp (getCmp w eid) n d) &&
        !_matchesFilter s (setCmp (getCmp w eid) n d) [n]) && !l.contains eid
      then l ++ [eid] else l), hl]
  rfl

/-- C3: the general appending rule for "added" listeners, plus the concrete
scenario.  For a fresh world with one entity holding only `a` (added with the
default truthy data): `getEntities(world, ["a","b"], "added")` creates the
added list seeded only with currently matching entities -- none -- and
returns `[]`; after `addComponentToEntity(world, entity, "b")` the added list
for key `"a,b"` holds exactly that entity, once. -/
theorem c3_added_listener_transition :
    (∀ w eid n d fid lst,
       truthy (lookupCmp (getCmp w eid) n) = false →
       alookup w.listenersAdded fid = some lst →
       alookup (addComponentToEntity w eid n d).listenersAdded fid =
         some (if (_matchesFilter fid (setCmp (getCmp w eid) n d) &&
                   !_matchesFilter fid (setCmp (getCmp w eid) n d) [n]) && !lst.contains eid
               then lst ++ [eid] else lst)) ∧
    (getEntities (addComponentToEntity (createEntity createWorld).1 0 "a")
        ["a", "b"] (some .added)).2 = [] ∧
    alookup (addComponentToEntity
        (getEntities (addComponentToEntity (createEntity createWorld).1 0 "a")
          ["a", "b"] (some .added)).1
        0 "b").listenersAdded "a,b" = some [0] := by
  refine ⟨?_, by decide, by decide⟩
  intro w eid n d fid lst hdup hl
  exact addComponentToEntity_added_at w eid n d fid lst hdup hl

/-- A world with an entity holding `a` and a memoized empty added list for
`"a,b"`, for the C3 witness. -/
def c3WitnessWorld : World :=
  (getEntities (addComponentToEntity (createEntity createWorld).1 0 "a")
    ["a", "b"] (some .added)).1

/-- Witness for C3's general conjunct at concrete inputs: adding `b` appends
entity 0 to the `"a,b"` added list exactly once. -/
theorem c3_added_listener_transition_witness :
    alookup (addComponentToEntity c3WitnessWorld 0 "b" (.vobj 0)).listenersAdded "a,b" =
      some (if (_matchesFilter "a,b" (setCmp (getCmp c3WitnessWorld 0) "b" (.vobj 0)) &&
                !_matchesFilter "a,b" (setCmp (getCmp c3WitnessWorld 0) "b" (.vobj 0)) ["b"]) &&
               !([] : List EntityId).contains 0
            then ([] : List EntityId) ++ [0] else []) :=
  c3_added_listener_transition.1 c3WitnessWorld 0 "b" (.vobj 0) "a,b" []
    (by decide) (by decide)

/-! Claim C5. -/

/-- A fresh world with one entity holding only `x`, for the C5 scenario. -/
def c5World : World := addComponentToEntity (createEntity createWorld).1 0 "x"

/-- C5: for an entity holding only `x`: `getEntities(world, ["!y"])` includes
it; after adding `y` (with the default truthy data) the memoized entry for
key `"!y"` no longer contains it -- the add reconciled the memoized list in
place -- and the next `getEntities(world, ["!y"])` call returns a list
without it. -/
theorem c5_negated_filter_update :
    0 ∈ (getEntities c5World ["!y"] none).2 ∧
    alookup (addComponentToEntity (getEntities c5World ["!y"] none).1 0 "y").filters "!y" =
      some [] ∧
    0 ∉ (getEntities (addComponentToEntity (getEntities c5World ["!y"] none).1 0 "y")
          ["!y"] none).2 := by
  decide

/-! Claim C9. -/

/-- The two-step counter bump of `getEntities` (`if (!cnt[id]) cnt[id] = 0;
cnt[id] += 1`) read back at its key: always the old defaulted value plus
one. -/
theorem counter_bump_eq (cnt : List (String × Int)) (fid : String) :
    alookup (aset (if jsFalsyCount (alookup cnt fid) then aset cnt fid 0 else cnt) fid
      ((alookup (if jsFalsyCount (alookup cnt fid) then aset cnt fid 0 else cnt) fid).getD 0
        + 1)) fid =
      some ((alookup cnt fid).getD 0 + 1) := by
  by_cases h : jsFalsyCount (alookup cnt fid) = true
  · rw [if_pos h, alookup_aset, if_pos rfl, alookup_aset, if_pos rfl]
    cases halo : alookup cnt fid with
    | none => simp
    | some v =>
      rw [halo] at h
      simp [jsFalsyCount] at h
      simp [h]
  · rw [if_neg h, alookup_aset, if_pos rfl]

/-- Projection of `getEntities` onto `stats.filterInvocationCount`. -/
theorem getEntities_fic_proj (w : World) (ns : List String) (lt : Option ListenerType) :
    (getEntities w ns lt).1.stats.filterInvocationCount =
      aset (if jsFalsyCount (alookup w.stats.filterInvocationCount (String.intercalate "," ns))
            then aset w.stats.filterInvocationCount (String.intercalate "," ns) 0
            else w.stats.filterInvocationCount)
        (String.intercalate "," ns)
        ((alookup
            (if jsFalsyCount (alookup w.stats.filterInvocationCount (String.intercalate "," ns))
             then aset w.stats.filterInvocationCount (String.intercalate "," ns) 0
             else w.stats.filterInvocationCount)
            (String.intercalate "," ns)).getD 0 + 1) := by
  unfold getEntities
  rcases lt with _ | tl
  · dsimp only
    simp only [getEntitiesChargeSystem_proj, getEntitiesCountInvocation_proj,
      getEntitiesMemoizeFilter_proj]
  · cases tl <;> dsimp only <;>
      simp only [getEntitiesAdded_proj, getEntitiesRemoved_proj, getEntitiesChargeSystem_proj,
        getEntitiesCountInvocation_proj, getEntitiesMemoizeFilter_proj]

/-- The memoized filter map right after the first stage of `getEntities`
(lazy creation of the entry for the queried key). -/
def memoFilters (w : World) (fid : String) : List (String × List EntityId) :=
  if (alookup w.filters fid).isNone then
    aset w.filters fid (w.entities.filter fun e => _matchesFilter fid (getCmp w e))
  else w.filters

/-- The length of the memoized list for `fid`, as read by the per-system
counter update (`world.filters[filterId].length` after lazy creation). -/
def memoLen (w : World) (fid : String) : Int :=
  (((alookup (memoFilters w fid) fid).getD []).length : Int)

theorem memoLen_eq (w : World) (fid : String) :
    memoLen w fid =
      match alookup w.filters fid with
      | some l => (l.length : Int)
      | none => ((w.entities.filter fun e => _matchesFilter fid (getCmp w e)).length : Int) := by
  unfold memoLen memoFilters
  cases halo : alookup w.filters fid with
  | none =>
    rw [if_pos (by simp [halo]), alookup_aset, if_pos rfl]
    rfl
  | some l =>
    rw [if_neg (by simp [halo]), halo]
    rfl

/-- The per-system per-filter stats counter (`stats.systems[i].filters[fid]`,
defaulting to 0 when absent or when the system entry does not exist). -/
def sysFilterCount (w : World) (i : Nat) (fid : String) : Int :=
  match w.stats.systems.get? i with
  | some s => (alookup s.filters fid).getD 0
  | none => 0

/-- Projection of `getEntities` onto `stats.systems`. -/
theorem getEntities_systems_proj (w : World) (ns : List String) (lt : Option ListenerType) :
    (getEntities w ns lt).1.stats.systems =
      (match w.stats.systems.get? w.stats.currentSystem with
       | some s =>
         w.stats.systems.set w.stats.currentSystem
           (let fid := String.intercalate "," ns
            let s' := if jsFalsyCount (alookup s.filters fid)
                      then { s with filters := aset s.filters fid 0 } else s
            let v := aset s'.filters fid
                       ((alookup s'.filters fid).getD 0 +
                         ((alookup (memoFilters w fid) fid).getD []).length)
            { s' with filters := v })
       | none => w.stats.systems) := by
  unfold getEntities
  rcases lt with _ | tl
  · dsimp only
    simp only [getEntitiesChargeSystem_proj, getEntitiesCountInvocation_proj,
      getEntitiesMemoizeFilter_proj, memoFilters]
  · cases tl <;> dsimp only <;>
      simp only [getEntitiesAdded_proj, getEntitiesRemoved_proj, getEntitiesChargeSystem_proj,
        getEntitiesCountInvocation_proj, getEntitiesMemoizeFilter_proj, memoFilters]

theorem getEntities_system_counter (w : World) (ns : List String) (lt : Option ListenerType)
    (h : w.stats.currentSystem < w.stats.systems.length) :
    sysFilterCount (getEntities w ns lt).1 w.stats.currentSystem (String.intercalate "," ns) =
      sysFilterCount w w.stats.currentSystem (String.intercalate "," ns) +
        memoLen w (String.intercalate "," ns) := by
  have hs := getEntities_systems_proj w ns lt
  have hget : w.stats.systems.get? w.stats.currentSystem =
      some (w.stats.systems.get ⟨w.stats.currentSystem, h⟩) := List.get?_eq_get h
  unfold sysFilterCount
  rw [hs, hget]
  dsimp only
  rw [List.get?_eq_getElem?, List.getElem?_set_self (by simpa using h)]
  dsimp only
  rw [alookup_aset, if_pos rfl]
  set s := w.stats.systems.get ⟨w.stats.currentSystem, h⟩ with hsdef
  by_cases hf : jsFalsyCount (alookup s.filters (String.intercalate "," ns)) = true
  · rw [if_pos hf]
    dsimp only
    rw [alookup_aset, if_pos rfl]
    cases halo : alookup s.filters (String.intercalate "," ns) with
    | none => simp [memoLen]
    | some v =>
      rw [halo] at hf
      simp [jsFalsyCount] at hf
      simp [hf, memoLen]
  · rw [if_neg hf]
    simp [memoLen]

/-- A fresh world with one registered system and one entity holding `pos`
(truthy default data), for the C9 scenario. -/
def c9World : World :=
  addComponentToEntity (createEntity (addSystem createWorld "motion")).1 0 "pos"

/-- The C9 scenario after one frame: `update` runs the single system, whose
callback queries `getEntities(world, ["pos"])` once. -/
def c9Updated : World :=
  update c9World [fun _ w => (getEntities w ["pos"] none).1] 16

/-- C9: every `getEntities` call -- any listenerType -- bumps
`stats.filterInvocationCount` at the joined key to its old defaulted value
plus one, and, when `stats.systems[stats.currentSystem]` exists, adds the
memoized filter list's current length to that system's per-filter counter;
in the one-entity one-system scenario, after `update` the first system's
per-filter counter for `"pos"` is exactly 1 (and the invocation counter is
1). -/
theorem c9_query_accounting :
    (∀ (w : World) (ns : List String) (lt : Option ListenerType),
       alookup (getEntities w ns lt).1.stats.filterInvocationCount
           (String.intercalate "," ns) =
         some ((alookup w.stats.filterInvocationCount (String.intercalate "," ns)).getD 0
           + 1)) ∧
    (∀ (w : World) (ns : List String) (lt : Option ListenerType),
       w.stats.currentSystem < w.stats.systems.length →
       sysFilterCount (getEntities w ns lt).1 w.stats.currentSystem
           (String.intercalate "," ns) =
         sysFilterCount w w.stats.currentSystem (String.intercalate "," ns) +
           memoLen w (String.intercalate "," ns)) ∧
    sysFilterCount c9Updated 0 "pos" = 1 ∧
    alookup c9Updated.stats.filterInvocationCount "pos" = some 1 := by
  refine ⟨?_, ?_, by decide, by decide⟩
  · intro w ns lt
    rw [getEntities_fic_proj]
    exact counter_bump_eq _ _
  · intro w ns lt h
    exact getEntities_system_counter w ns lt h

/-- Witness for C9's universally quantified conjuncts at the scenario world
(one registered system, `currentSystem = 0`): the invocation counter for
`"pos"` and the first system's per-filter counter both follow the stated
accounting. -/
theorem c9_query_accounting_witness :
    alookup (getEntities c9World ["pos"] none).1.stats.filterInvocationCount
        (String.intercalate "," ["pos"]) =
      some ((alookup c9World.stats.filterInvocationCount
          (String.intercalate "," ["pos"])).getD 0 + 1) ∧
    sysFilterCount (getEntities c9World ["pos"] none).1 c9World.stats.currentSystem
        (String.intercalate "," ["pos"]) =
      sysFilterCount c9World c9World.stats.currentSystem (String.intercalate "," ["pos"]) +
        memoLen c9World (String.intercalate "," ["pos"]) :=
  ⟨c9_query_accounting.1 c9World ["pos"] none,
   c9_query_accounting.2.1 c9World ["pos"] none (by decide)⟩
